import Mathlib

/-!
Verification of the Heimdall JS SDK (`hmdl`): shallow embedding of the
session/user identity-resolution core — JWT claim decoding, header-based
identity extraction, request-context scoping, and the instrumentation
wrapper's priority chains — together with proofs of the specification
claims about them.

Modelling conventions:
* JS strings are `List Char`; bytes are `Nat` values below 256.
* JSON numbers are modelled as integers (floating-point fraction/exponent
  forms are outside the model).
* `Buffer.from(s, "base64")` / `"base64url"` is modelled by Node's
  forgiving decoder: characters outside the (combined standard + URL-safe)
  alphabet, including `=`, are skipped, and a trailing group of 2 or 3
  sextets decodes to 1 or 2 bytes.
* `buffer.toString("utf-8")` is modelled as lossy UTF-8 decoding: malformed
  byte sequences decode to U+FFFD instead of raising.
* `String.prototype.toLowerCase` is modelled on the ASCII range, which is
  extensionally faithful for every use here (the `"bearer "` prefix test).
-/

set_option maxHeartbeats 1000000

namespace Heimdall

/-! ### JavaScript string primitives -/

/-- JS truthiness of a `string | undefined` value: `undefined`, `null` and
`""` are falsy. -/
def truthy : Option (List Char) → Bool
  | none => false
  | some s => !s.isEmpty

/-- `token.toLowerCase()` restricted to ASCII (faithful for the uses here). -/
def jsToLower (s : List Char) : List Char := s.map Char.toLower

/-- `a.startsWith(b)` on character lists. -/
def startsWithJS : List Char → List Char → Bool
  | _, [] => true
  | [], _ :: _ => false
  | c :: cs, p :: ps => c = p && startsWithJS cs ps

/-- `s.split(".")` on character lists: JS `"".split(".") = [""]`,
`"a.".split(".") = ["a",""]`, matching this definition. -/
def splitOnDot : List Char → List (List Char)
  | [] => [[]]
  | c :: rest =>
    if c = '.' then [] :: splitOnDot rest
    else
      match splitOnDot rest with
      | [] => [[c]]
      | seg :: segs => (c :: seg) :: segs

theorem splitOnDot_ne_nil (s : List Char) : splitOnDot s ≠ [] := by
  induction s with
  | nil => simp [splitOnDot]
  | cons c rest ih =>
    simp only [splitOnDot]
    split
    · simp
    · cases h : splitOnDot rest <;> simp

theorem splitOnDot_no_dot (s : List Char) (h : '.' ∉ s) : splitOnDot s = [s] := by
  induction s with
  | nil => rfl
  | cons c rest ih =>
    simp only [List.mem_cons, not_or] at h
    have hc : ¬ c = '.' := fun e => h.1 e.symm
    simp [splitOnDot, hc, ih h.2]

theorem splitOnDot_append_dot (a rest : List Char) (ha : '.' ∉ a) :
    splitOnDot (a ++ '.' :: rest) = a :: splitOnDot rest := by
  induction a with
  | nil => simp [splitOnDot]
  | cons c cs ih =>
    simp only [List.mem_cons, not_or] at ha
    have hc : ¬ c = '.' := fun e => ha.1 e.symm
    have ih2 := ih ha.2
    simp only [List.cons_append, splitOnDot, if_neg hc, List.append_eq]
    rw [ih2]

theorem startsWithJS_append (p s : List Char) : startsWithJS (p ++ s) p = true := by
  induction p with
  | nil => cases s <;> rfl
  | cons c cs ih => simpa [startsWithJS]

/-! ### Base64 (standard and URL-safe alphabets) -/

/-- Character for sextet `n` in the standard base64 alphabet. -/
def b64Char (n : Nat) : Char :=
  if n < 26 then Char.ofNat (65 + n)
  else if n < 52 then Char.ofNat (97 + (n - 26))
  else if n < 62 then Char.ofNat (48 + (n - 52))
  else if n = 62 then '+'
  else '/'

/-- Character for sextet `n` in the URL-safe base64 alphabet. -/
def b64urlChar (n : Nat) : Char :=
  if n = 62 then '-' else if n = 63 then '_' else b64Char n

/-- Sextet value of a character; Node's decoder accepts both the standard
and URL-safe alphabets in either mode. `none` for every other character
(such characters are skipped by the forgiving decoder). -/
def b64Val (c : Char) : Option Nat :=
  if 'A' ≤ c ∧ c ≤ 'Z' then some (c.toNat - 65)
  else if 'a' ≤ c ∧ c ≤ 'z' then some (c.toNat - 97 + 26)
  else if '0' ≤ c ∧ c ≤ '9' then some (c.toNat - 48 + 52)
  else if c = '+' ∨ c = '-' then some 62
  else if c = '/' ∨ c = '_' then some 63
  else none

theorem b64Val_b64urlChar : ∀ n < 64, b64Val (b64urlChar n) = some n := by decide

/-- Bytes (each < 256) to base64 sextets, including the short trailing
groups produced for 1 or 2 leftover bytes. -/
def bytesToSextets : List Nat → List Nat
  | b1 :: b2 :: b3 :: rest =>
    b1 / 4 :: ((b1 % 4) * 16 + b2 / 16) :: ((b2 % 16) * 4 + b3 / 64) :: b3 % 64 ::
      bytesToSextets rest
  | [b1, b2] => [b1 / 4, (b1 % 4) * 16 + b2 / 16, (b2 % 16) * 4]
  | [b1] => [b1 / 4, (b1 % 4) * 16]
  | [] => []

/-- Sextets back to bytes: groups of 4 yield 3 bytes; a trailing group of
3 yields 2 bytes, of 2 yields 1 byte, of 1 yields nothing (Node semantics). -/
def sextetsToBytes : List Nat → List Nat
  | s1 :: s2 :: s3 :: s4 :: rest =>
    (s1 * 4 + s2 / 16) :: ((s2 % 16) * 16 + s3 / 4) :: ((s3 % 4) * 64 + s4) ::
      sextetsToBytes rest
  | [s1, s2, s3] => [s1 * 4 + s2 / 16, (s2 % 16) * 16 + s3 / 4]
  | [s1, s2] => [s1 * 4 + s2 / 16]
  | _ => []

theorem sextetsToBytes_bytesToSextets (bs : List Nat) (h : ∀ b ∈ bs, b < 256) :
    sextetsToBytes (bytesToSextets bs) = bs := by
  induction bs using bytesToSextets.induct with
  | case1 b1 b2 b3 rest ih =>
    have h1 : b1 < 256 := h b1 (by simp)
    have h2 : b2 < 256 := h b2 (by simp)
    have h3 : b3 < 256 := h b3 (by simp)
    have hrest : ∀ b ∈ rest, b < 256 := fun b hb => h b (by simp [hb])
    simp only [bytesToSextets, sextetsToBytes, ih hrest, List.cons.injEq]
    exact ⟨by omega, by omega, by omega, trivial⟩
  | case2 b1 b2 =>
    have h1 : b1 < 256 := h b1 (by simp)
    have h2 : b2 < 256 := h b2 (by simp)
    simp only [bytesToSextets, sextetsToBytes, List.cons.injEq]
    exact ⟨by omega, by omega, trivial⟩
  | case3 b1 =>
    have h1 : b1 < 256 := h b1 (by simp)
    simp only [bytesToSextets, sextetsToBytes, List.cons.injEq]
    exact ⟨by omega, trivial⟩
  | case4 => rfl

theorem bytesToSextets_lt (bs : List Nat) (h : ∀ b ∈ bs, b < 256) :
    ∀ s ∈ bytesToSextets bs, s < 64 := by
  induction bs using bytesToSextets.induct with
  | case1 b1 b2 b3 rest ih =>
    have h1 : b1 < 256 := h b1 (by simp)
    have h2 : b2 < 256 := h b2 (by simp)
    have h3 : b3 < 256 := h b3 (by simp)
    have hrest : ∀ b ∈ rest, b < 256 := fun b hb => h b (by simp [hb])
    intro s hs
    simp only [bytesToSextets, List.mem_cons] at hs
    rcases hs with rfl | rfl | rfl | rfl | hs
    · omega
    · omega
    · omega
    · omega
    · exact ih hrest s hs
  | case2 b1 b2 =>
    have h1 : b1 < 256 := h b1 (by simp)
    have h2 : b2 < 256 := h b2 (by simp)
    intro s hs
    simp only [bytesToSextets, List.mem_cons] at hs
    rcases hs with rfl | rfl | rfl | hs
    · omega
    · omega
    · omega
    · simp at hs
  | case3 b1 =>
    have h1 : b1 < 256 := h b1 (by simp)
    intro s hs
    simp only [bytesToSextets, List.mem_cons] at hs
    rcases hs with rfl | rfl | hs
    · omega
    · omega
    · simp at hs
  | case4 => intro s hs; simp [bytesToSextets] at hs

/-- `buf.toString("base64url")`: unpadded URL-safe base64 of the bytes. -/
def base64urlEncode (bs : List Nat) : List Char :=
  (bytesToSextets bs).map b64urlChar

/-- Node's forgiving base64 decoder (model): non-alphabet characters,
including `=` padding, are skipped; groups of 4 sextets decode to 3 bytes
with short trailing groups as in `sextetsToBytes`. -/
def base64Decode (cs : List Char) : List Nat :=
  sextetsToBytes (cs.filterMap b64Val)

theorem filterMap_b64Val_map_b64urlChar (ss : List Nat) (h : ∀ s ∈ ss, s < 64) :
    (ss.map b64urlChar).filterMap b64Val = ss := by
  induction ss with
  | nil => rfl
  | cons s rest ih =>
    have hs : s < 64 := h s (by simp)
    have hrest : ∀ x ∈ rest, x < 64 := fun x hx => h x (by simp [hx])
    simp only [List.map_cons, List.filterMap_cons, b64Val_b64urlChar s hs, ih hrest]

theorem base64Decode_base64urlEncode (bs : List Nat) (h : ∀ b ∈ bs, b < 256) :
    base64Decode (base64urlEncode bs) = bs := by
  unfold base64Decode base64urlEncode
  rw [filterMap_b64Val_map_b64urlChar _ (bytesToSextets_lt bs h)]
  exact sextetsToBytes_bytesToSextets bs h

/-! ### UTF-8 encoding and lossy decoding -/

/-- Standard UTF-8 encoding of one unicode scalar value. -/
def utf8EncodeChar (c : Char) : List Nat :=
  let n := c.toNat
  if n < 0x80 then [n]
  else if n < 0x800 then [0xC0 + n / 64, 0x80 + n % 64]
  else if n < 0x10000 then [0xE0 + n / 4096, 0x80 + (n / 64) % 64, 0x80 + n % 64]
  else [0xF0 + n / 262144, 0x80 + (n / 4096) % 64, 0x80 + (n / 64) % 64, 0x80 + n % 64]

/-- `Buffer.from(string, "utf-8")` (model): UTF-8 bytes of a string. -/
def utf8Encode : List Char → List Nat
  | [] => []
  | c :: rest => utf8EncodeChar c ++ utf8Encode rest

/-- U+FFFD, the replacement character emitted by lossy decoding. -/
def replChar : Char := Char.ofNat 0xFFFD

/-- A UTF-8 continuation byte. -/
def isCont (b : Nat) : Bool := 0x80 ≤ b && b < 0xC0

/-- Continuation handling for a 2-byte UTF-8 lead byte `b`. -/
def utf8Cont1 (b : Nat) : List Nat → Char × List Nat
  | b2 :: rest2 =>
    if isCont b2 then (Char.ofNat ((b - 0xC0) * 64 + (b2 - 0x80)), rest2)
    else (replChar, b2 :: rest2)
  | [] => (replChar, [])

/-- Continuation handling for a 3-byte UTF-8 lead byte `b` (with the
overlong and surrogate-range checks on the first continuation byte). -/
def utf8Cont2 (b : Nat) : List Nat → Char × List Nat
  | b2 :: b3 :: rest2 =>
    if isCont b2 ∧ isCont b3 ∧ (0xE0 < b ∨ 0xA0 ≤ b2) ∧ (¬ b = 0xED ∨ b2 < 0xA0) then
      (Char.ofNat ((b - 0xE0) * 4096 + (b2 - 0x80) * 64 + (b3 - 0x80)), rest2)
    else (replChar, b2 :: b3 :: rest2)
  | short => (replChar, short)

/-- Continuation handling for a 4-byte UTF-8 lead byte `b` (with the
overlong and out-of-range checks on the first continuation byte). -/
def utf8Cont3 (b : Nat) : List Nat → Char × List Nat
  | b2 :: b3 :: b4 :: rest2 =>
    if isCont b2 ∧ isCont b3 ∧ isCont b4 ∧ (0xF0 < b ∨ 0x90 ≤ b2) ∧ (b < 0xF4 ∨ b2 < 0x90) then
      (Char.ofNat ((b - 0xF0) * 262144 + (b2 - 0x80) * 4096 + (b3 - 0x80) * 64 + (b4 - 0x80)),
        rest2)
    else (replChar, b2 :: b3 :: b4 :: rest2)
  | short => (replChar, short)

/-- One step of lossy UTF-8 decoding: `b` is the byte already consumed,
`rest` the remaining bytes. Returns the decoded character (U+FFFD for a
malformed leading pattern) and the bytes left over. -/
def utf8Step (b : Nat) (rest : List Nat) : Char × List Nat :=
  if b < 0x80 then (Char.ofNat b, rest)
  else if 0xC2 ≤ b ∧ b < 0xE0 then utf8Cont1 b rest
  else if 0xE0 ≤ b ∧ b < 0xF0 then utf8Cont2 b rest
  else if 0xF0 ≤ b ∧ b < 0xF5 then utf8Cont3 b rest
  else (replChar, rest)

theorem utf8Cont1_length (b : Nat) (rest : List Nat) :
    (utf8Cont1 b rest).2.length ≤ rest.length := by
  cases rest with
  | nil => simp [utf8Cont1]
  | cons b2 rest2 =>
    simp only [utf8Cont1]
    split <;> simp only [List.length_cons] <;> omega

theorem utf8Cont2_length (b : Nat) (rest : List Nat) :
    (utf8Cont2 b rest).2.length ≤ rest.length := by
  match rest with
  | [] => simp [utf8Cont2]
  | [b2] => simp [utf8Cont2]
  | b2 :: b3 :: rest2 =>
    simp only [utf8Cont2]
    split <;> simp only [List.length_cons] <;> omega

theorem utf8Cont3_length (b : Nat) (rest : List Nat) :
    (utf8Cont3 b rest).2.length ≤ rest.length := by
  match rest with
  | [] => simp [utf8Cont3]
  | [b2] => simp [utf8Cont3]
  | [b2, b3] => simp [utf8Cont3]
  | b2 :: b3 :: b4 :: rest2 =>
    simp only [utf8Cont3]
    split <;> simp only [List.length_cons] <;> omega

theorem utf8Step_length (b : Nat) (rest : List Nat) :
    (utf8Step b rest).2.length ≤ rest.length := by
  unfold utf8Step
  split
  · simp
  · split
    · exact utf8Cont1_length b rest
    · split
      · exact utf8Cont2_length b rest
      · split
        · exact utf8Cont3_length b rest
        · simp

/-- `buffer.toString("utf-8")` (model): lossy UTF-8 decoding. Well-formed
sequences decode exactly; a malformed leading pattern yields U+FFFD and
decoding resumes (never raises), matching Node's replacement behavior. -/
def utf8Decode : List Nat → List Char
  | [] => []
  | b :: rest => (utf8Step b rest).1 :: utf8Decode (utf8Step b rest).2
termination_by bs => bs.length
decreasing_by
  have := utf8Step_length b rest
  simp only [List.length_cons]
  omega

theorem char_toNat_lt (c : Char) : c.toNat < 0x110000 := by
  have h := c.valid
  rcases h with h | h
  · exact Nat.lt_trans h (by norm_num)
  · exact h.2

theorem char_toNat_not_surrogate (c : Char) : c.toNat < 0xD800 ∨ 0xE000 ≤ c.toNat := by
  have h := c.valid
  rcases h with h | h
  · exact Or.inl h
  · exact Or.inr h.1

theorem utf8Decode_cons (b : Nat) (rest : List Nat) :
    utf8Decode (b :: rest) = (utf8Step b rest).1 :: utf8Decode (utf8Step b rest).2 := by
  rw [utf8Decode]

theorem utf8Decode_encodeChar (c : Char) (bs : List Nat) :
    utf8Decode (utf8EncodeChar c ++ bs) = c :: utf8Decode bs := by
  have hlt := char_toNat_lt c
  have hsur := char_toNat_not_surrogate c
  have hofnat : Char.ofNat c.toNat = c := Char.ofNat_toNat c
  unfold utf8EncodeChar
  by_cases h1 : c.toNat < 0x80
  · simp only [if_pos h1, List.cons_append, List.nil_append]
    have hstep : utf8Step c.toNat bs = (c, bs) := by
      unfold utf8Step
      rw [if_pos h1, hofnat]
    rw [utf8Decode_cons, hstep]
  · by_cases h2 : c.toNat < 0x800
    · simp only [if_neg h1, if_pos h2, List.cons_append, List.nil_append]
      have hstep : utf8Step (0xC0 + c.toNat / 64) ((0x80 + c.toNat % 64) :: bs) = (c, bs) := by
        unfold utf8Step
        rw [if_neg (by omega),
          if_pos (by omega : 0xC2 ≤ 0xC0 + c.toNat / 64 ∧ 0xC0 + c.toNat / 64 < 0xE0)]
        have hc : isCont (0x80 + c.toNat % 64) = true := by
          simp only [isCont, Bool.and_eq_true, decide_eq_true_eq]
          omega
        simp only [utf8Cont1, hc, if_true]
        have hv : (0xC0 + c.toNat / 64 - 0xC0) * 64 + (0x80 + c.toNat % 64 - 0x80) = c.toNat := by
          omega
        rw [hv, hofnat]
      rw [utf8Decode_cons, hstep]
    · by_cases h3 : c.toNat < 0x10000
      · simp only [if_neg h1, if_neg h2, if_pos h3, List.cons_append, List.nil_append]
        have hstep : utf8Step (0xE0 + c.toNat / 4096)
            ((0x80 + c.toNat / 64 % 64) :: (0x80 + c.toNat % 64) :: bs) = (c, bs) := by
          unfold utf8Step
          rw [if_neg (by omega), if_neg (by omega), if_pos (by omega :
            0xE0 ≤ 0xE0 + c.toNat / 4096 ∧ 0xE0 + c.toNat / 4096 < 0xF0)]
          have hc2 : isCont (0x80 + c.toNat / 64 % 64) = true := by
            simp only [isCont, Bool.and_eq_true, decide_eq_true_eq]
            omega
          have hc3 : isCont (0x80 + c.toNat % 64) = true := by
            simp only [isCont, Bool.and_eq_true, decide_eq_true_eq]
            omega
          simp only [utf8Cont2]
          rw [if_pos ⟨hc2, hc3, by omega, by omega⟩]
          have hv : (0xE0 + c.toNat / 4096 - 0xE0) * 4096 + (0x80 + c.toNat / 64 % 64 - 0x80) * 64 +
              (0x80 + c.toNat % 64 - 0x80) = c.toNat := by omega
          rw [hv, hofnat]
        rw [utf8Decode_cons, hstep]
      · simp only [if_neg h1, if_neg h2, if_neg h3, List.cons_append, List.nil_append]
        have hstep : utf8Step (0xF0 + c.toNat / 262144)
            ((0x80 + c.toNat / 4096 % 64) :: (0x80 + c.toNat / 64 % 64) ::
              (0x80 + c.toNat % 64) :: bs) = (c, bs) := by
          unfold utf8Step
          rw [if_neg (by omega), if_neg (by omega), if_neg (by omega), if_pos (by omega :
            0xF0 ≤ 0xF0 + c.toNat / 262144 ∧ 0xF0 + c.toNat / 262144 < 0xF5)]
          have hc2 : isCont (0x80 + c.toNat / 4096 % 64) = true := by
            simp only [isCont, Bool.and_eq_true, decide_eq_true_eq]
            omega
          have hc3 : isCont (0x80 + c.toNat / 64 % 64) = true := by
            simp only [isCont, Bool.and_eq_true, decide_eq_true_eq]
            omega
          have hc4 : isCont (0x80 + c.toNat % 64) = true := by
            simp only [isCont, Bool.and_eq_true, decide_eq_true_eq]
            omega
          simp only [utf8Cont3]
          rw [if_pos ⟨hc2, hc3, hc4, by omega, by omega⟩]
          have hv : (0xF0 + c.toNat / 262144 - 0xF0) * 262144 +
              (0x80 + c.toNat / 4096 % 64 - 0x80) * 4096 +
              (0x80 + c.toNat / 64 % 64 - 0x80) * 64 + (0x80 + c.toNat % 64 - 0x80) = c.toNat := by
            omega
          rw [hv, hofnat]
        rw [utf8Decode_cons, hstep]

theorem utf8Decode_utf8Encode (s : List Char) : utf8Decode (utf8Encode s) = s := by
  induction s with
  | nil => simp [utf8Encode, utf8Decode]
  | cons c rest ih => rw [utf8Encode, utf8Decode_encodeChar, ih]

theorem utf8EncodeChar_lt (c : Char) : ∀ b ∈ utf8EncodeChar c, b < 256 := by
  have hlt := char_toNat_lt c
  unfold utf8EncodeChar
  intro b hb
  by_cases h1 : c.toNat < 0x80
  · simp only [if_pos h1, List.mem_cons, List.not_mem_nil, or_false] at hb
    omega
  · by_cases h2 : c.toNat < 0x800
    · simp only [if_neg h1, if_pos h2, List.mem_cons, List.not_mem_nil, or_false] at hb
      rcases hb with rfl | rfl <;> omega
    · by_cases h3 : c.toNat < 0x10000
      · simp only [if_neg h1, if_neg h2, if_pos h3, List.mem_cons, List.not_mem_nil,
          or_false] at hb
        rcases hb with rfl | rfl | rfl <;> omega
      · simp only [if_neg h1, if_neg h2, if_neg h3, List.mem_cons, List.not_mem_nil,
          or_false] at hb
        rcases hb with rfl | rfl | rfl | rfl <;> omega

theorem utf8Encode_lt (s : List Char) : ∀ b ∈ utf8Encode s, b < 256 := by
  induction s with
  | nil => intro b hb; simp [utf8Encode] at hb
  | cons c rest ih =>
    intro b hb
    rw [utf8Encode] at hb
    rcases List.mem_append.mp hb with h | h
    · exact utf8EncodeChar_lt c b h
    · exact ih b h

/-! ### JSON: model of `JSON.stringify` / `JSON.parse`

JSON values with integer numbers (floating-point forms are outside the
model). Objects are ordered association lists; `JSON.parse` collects the
key/value pairs in textual order, and lookups take the last occurrence of
a key, matching JS object semantics for duplicate keys. -/

inductive Json where
  | jnull : Json
  | jbool : Bool → Json
  | jnum : Int → Json
  | jstr : List Char → Json
  | jarr : List Json → Json
  | jobj : List (List Char × Json) → Json

/-- The character U+007B (opening curly brace). -/
def lbraceChar : Char := Char.ofNat 123

/-- The character U+007D (closing curly brace). -/
def rbraceChar : Char := Char.ofNat 125

/-- Lowercase hex digit for `n < 16`. -/
def hexDigitChar (n : Nat) : Char :=
  if n < 10 then Char.ofNat (48 + n) else Char.ofNat (87 + n)

/-- JSON string escaping of one character: `"` and `\` are escaped, control
characters become `\u00XX`, everything else is emitted raw. -/
def escapeChar (c : Char) : List Char :=
  if c = '"' then ['\\', '"']
  else if c = '\\' then ['\\', '\\']
  else if c.toNat < 0x20 then
    ['\\', 'u', '0', '0', hexDigitChar (c.toNat / 16), hexDigitChar (c.toNat % 16)]
  else [c]

def escapeStr : List Char → List Char
  | [] => []
  | c :: rest => escapeChar c ++ escapeStr rest

/-- A serialized JSON string literal. -/
def serStr (s : List Char) : List Char := '"' :: (escapeStr s ++ ['"'])

/-- Decimal digits of a natural number. -/
def natDigits (n : Nat) : List Char :=
  if h : n < 10 then [Char.ofNat (48 + n)]
  else natDigits (n / 10) ++ [Char.ofNat (48 + n % 10)]
decreasing_by exact Nat.div_lt_self (by omega) (by omega)

/-- Decimal rendering of an integer. -/
def serInt : Int → List Char
  | Int.ofNat n => natDigits n
  | Int.negSucc m => '-' :: natDigits (m + 1)

mutual

/-- `JSON.stringify` (model). -/
def serJson : Json → List Char
  | .jnull => ['n', 'u', 'l', 'l']
  | .jbool true => ['t', 'r', 'u', 'e']
  | .jbool false => ['f', 'a', 'l', 's', 'e']
  | .jnum i => serInt i
  | .jstr s => serStr s
  | .jarr [] => ['[', ']']
  | .jarr (x :: xs) => '[' :: (serElems x xs ++ [']'])
  | .jobj [] => [lbraceChar, rbraceChar]
  | .jobj (f :: fs) => lbraceChar :: (serFields f fs ++ [rbraceChar])
termination_by j => sizeOf j
decreasing_by
  all_goals simp_wf
  all_goals omega

/-- Comma-separated serialization of a nonempty array's elements. -/
def serElems : Json → List Json → List Char
  | x, [] => serJson x
  | x, y :: ys => serJson x ++ ',' :: serElems y ys
termination_by x xs => sizeOf x + sizeOf xs
decreasing_by
  all_goals simp_wf
  all_goals omega

/-- Comma-separated serialization of a nonempty object's fields. -/
def serFields : (List Char × Json) → List (List Char × Json) → List Char
  | (k, v), [] => serStr k ++ ':' :: serJson v
  | (k, v), f :: fs => serStr k ++ ':' :: serJson v ++ ',' :: serFields f fs
termination_by f fs => sizeOf f + sizeOf fs
decreasing_by
  all_goals simp_wf
  all_goals omega

end

/-- JSON whitespace. -/
def isWsChar (c : Char) : Bool := c = ' ' || c = '\t' || c = '\n' || c = '\r'

def skipWs : List Char → List Char
  | c :: rest => if isWsChar c then skipWs rest else c :: rest
  | [] => []

def isDigitChar (c : Char) : Bool := '0' ≤ c && c ≤ '9'

def hexVal (c : Char) : Option Nat :=
  if '0' ≤ c ∧ c ≤ '9' then some (c.toNat - 48)
  else if 'a' ≤ c ∧ c ≤ 'f' then some (c.toNat - 87)
  else if 'A' ≤ c ∧ c ≤ 'F' then some (c.toNat - 55)
  else none

/-- Single-character JSON escapes. -/
def unescapeChar (e : Char) : Option Char :=
  if e = '"' then some '"'
  else if e = '\\' then some '\\'
  else if e = '/' then some '/'
  else if e = 'b' then some (Char.ofNat 8)
  else if e = 'f' then some (Char.ofNat 12)
  else if e = 'n' then some '\n'
  else if e = 'r' then some '\r'
  else if e = 't' then some '\t'
  else none

/-- Parse the body of a JSON string literal (after the opening quote),
returning the decoded characters and the input after the closing quote.
`\uXXXX` escapes are mapped through `Char.ofNat` (UTF-16 surrogate halves
are outside the scalar-value model). -/
def parseStr : List Char → Option (List Char × List Char)
  | [] => none
  | c :: rest =>
    if c = '"' then some ([], rest)
    else if c = '\\' then
      match rest with
      | e :: rest2 =>
        if e = 'u' then
          match rest2 with
          | h1 :: h2 :: h3 :: h4 :: rest3 =>
            match hexVal h1 with
            | some v1 =>
              match hexVal h2 with
              | some v2 =>
                match hexVal h3 with
                | some v3 =>
                  match hexVal h4 with
                  | some v4 =>
                    match parseStr rest3 with
                    | some (s, r) =>
                      some (Char.ofNat (((v1 * 16 + v2) * 16 + v3) * 16 + v4) :: s, r)
                    | none => none
                  | none => none
                | none => none
              | none => none
            | none => none
          | _ => none
        else
          match unescapeChar e with
          | some c2 =>
            match parseStr rest2 with
            | some (s, r) => some (c2 :: s, r)
            | none => none
          | none => none
      | [] => none
    else
      match parseStr rest with
      | some (s, r) => some (c :: s, r)
      | none => none

/-- Longest digit prefix and the remaining input. -/
def takeDigits : List Char → List Char × List Char
  | [] => ([], [])
  | c :: rest =>
    if isDigitChar c then
      ((takeDigits rest).1.cons c, (takeDigits rest).2)
    else ([], c :: rest)

def digitsToNat (ds : List Char) : Nat :=
  ds.foldl (fun acc c => acc * 10 + (c.toNat - 48)) 0

/-- A digit string with a forbidden leading zero (`0` followed by more
digits), rejected by the JSON number grammar. -/
def leadZero : List Char → Bool
  | c :: _ :: _ => c = '0'
  | _ => false

/-- Parse a JSON number (integer grammar: optional `-`, then digits with
no leading zero). -/
def parseNum : List Char → Option (Int × List Char)
  | [] => none
  | c :: rest =>
    if c = '-' then
      match takeDigits rest with
      | ([], _) => none
      | (ds, r) => if leadZero ds then none else some (-(digitsToNat ds : Int), r)
    else
      match takeDigits (c :: rest) with
      | ([], _) => none
      | (ds, r) => if leadZero ds then none else some ((digitsToNat ds : Int), r)

mutual

/-- Recursive-descent `JSON.parse` (model), with a step-count fuel that
every recursive call decrements. `jsonParse` supplies sufficient fuel. -/
def parseValue : Nat → List Char → Option (Json × List Char)
  | 0, _ => none
  | fuel + 1, s =>
    match skipWs s with
    | [] => none
    | c :: rest =>
      if c = 'n' then
        match rest with
        | 'u' :: 'l' :: 'l' :: r => some (.jnull, r)
        | _ => none
      else if c = 't' then
        match rest with
        | 'r' :: 'u' :: 'e' :: r => some (.jbool true, r)
        | _ => none
      else if c = 'f' then
        match rest with
        | 'a' :: 'l' :: 's' :: 'e' :: r => some (.jbool false, r)
        | _ => none
      else if c = '"' then
        match parseStr rest with
        | some (str, r) => some (.jstr str, r)
        | none => none
      else if c = '[' then
        match skipWs rest with
        | c2 :: r2 =>
          if c2 = ']' then some (.jarr [], r2)
          else
            match parseElems fuel rest with
            | some (xs, r) => some (.jarr xs, r)
            | none => none
        | [] => none
      else if c = lbraceChar then
        match skipWs rest with
        | c2 :: r2 =>
          if c2 = rbraceChar then some (.jobj [], r2)
          else
            match parseFields fuel rest with
            | some (fs, r) => some (.jobj fs, r)
            | none => none
        | [] => none
      else if c = '-' ∨ isDigitChar c then
        match parseNum (c :: rest) with
        | some (i, r) => some (.jnum i, r)
        | none => none
      else none

/-- Elements of a nonempty JSON array, consuming the closing `]`. -/
def parseElems : Nat → List Char → Option (List Json × List Char)
  | 0, _ => none
  | fuel + 1, s =>
    match parseValue fuel s with
    | some (v, r) =>
      match skipWs r with
      | c :: r2 =>
        if c = ',' then
          match parseElems fuel r2 with
          | some (vs, r3) => some (v :: vs, r3)
          | none => none
        else if c = ']' then some ([v], r2)
        else none
      | [] => none
    | none => none

/-- Fields of a nonempty JSON object, consuming the closing brace. -/
def parseFields : Nat → List Char → Option (List (List Char × Json) × List Char)
  | 0, _ => none
  | fuel + 1, s =>
    match skipWs s with
    | c :: rest =>
      if c = '"' then
        match parseStr rest with
        | some (k, r) =>
          match skipWs r with
          | c1 :: r2 =>
            if c1 = ':' then
              match parseValue fuel r2 with
              | some (v, r3) =>
                match skipWs r3 with
                | c2 :: r4 =>
                  if c2 = ',' then
                    match parseFields fuel r4 with
                    | some (fs, r5) => some ((k, v) :: fs, r5)
                    | none => none
                  else if c2 = rbraceChar then some ([(k, v)], r4)
                  else none
                | [] => none
              | none => none
            else none
          | [] => none
        | none => none
      else none
    | [] => none

end

/-- `JSON.parse` (model): parse one JSON value with fuel `length + 1`
(shown sufficient below) and require only trailing whitespace. -/
def jsonParse (s : List Char) : Option Json :=
  match parseValue (s.length + 1) s with
  | some (v, r) => if (skipWs r).isEmpty then some v else none
  | none => none

/-- JS object member access on parsed JSON: last occurrence of a duplicated
key wins, as in a JS object built by `JSON.parse`. -/
def jsLookup (fields : List (List Char × Json)) (key : List Char) : Option Json :=
  fields.foldl (fun acc kv => if kv.1 = key then some kv.2 else acc) none

/-! ### Round-trip: `jsonParse (serJson v) = some v` -/

/-- `rest` does not begin with a decimal digit (so a serialized number
followed by `rest` parses back exactly). -/
def noDigitHead : List Char → Bool
  | [] => true
  | c :: _ => !isDigitChar c

theorem skipWs_cons (c : Char) (rest : List Char) (h : isWsChar c = false) :
    skipWs (c :: rest) = c :: rest := by
  simp [skipWs, h]

theorem hexVal_hexDigitChar : ∀ n < 16, hexVal (hexDigitChar n) = some n := by decide

theorem digit_facts (d : Char) (h : isDigitChar d = true) :
    isWsChar d = false ∧ ¬ d = ']' ∧ ¬ d = rbraceChar ∧ ¬ d = '-' ∧ ¬ d = 'n' ∧
    ¬ d = 't' ∧ ¬ d = 'f' ∧ ¬ d = '"' ∧ ¬ d = '[' ∧ ¬ d = lbraceChar := by
  refine ⟨?_, ?_, ?_, ?_, ?_, ?_, ?_, ?_, ?_, ?_⟩
  · cases hw : isWsChar d
    · rfl
    · exfalso
      simp only [isWsChar, Bool.or_eq_true, decide_eq_true_eq] at hw
      rcases hw with ((rfl | rfl) | rfl) | rfl <;> exact absurd h (by decide)
  all_goals (intro e; rw [e] at h; exact absurd h (by decide))

theorem parseStr_escape (s rest : List Char) :
    parseStr (escapeStr s ++ '"' :: rest) = some (s, rest) := by
  induction s with
  | nil =>
    show parseStr ('"' :: rest) = some ([], rest)
    rw [parseStr.eq_def]
    rfl
  | cons c cs ih =>
    by_cases h1 : c = '"'
    · subst h1
      show parseStr ('\\' :: '"' :: (escapeStr cs ++ '"' :: rest)) = some ('"' :: cs, rest)
      rw [parseStr.eq_def]
      show (match parseStr (escapeStr cs ++ '"' :: rest) with
            | some (s2, r) => some ('"' :: s2, r)
            | none => none) = some ('"' :: cs, rest)
      rw [ih]
    · by_cases h2 : c = '\\'
      · subst h2
        show parseStr ('\\' :: '\\' :: (escapeStr cs ++ '"' :: rest)) = some ('\\' :: cs, rest)
        rw [parseStr.eq_def]
        show (match parseStr (escapeStr cs ++ '"' :: rest) with
              | some (s2, r) => some ('\\' :: s2, r)
              | none => none) = some ('\\' :: cs, rest)
        rw [ih]
      · by_cases h3 : c.toNat < 0x20
        · show parseStr ((escapeChar c ++ escapeStr cs) ++ '"' :: rest) = some (c :: cs, rest)
          unfold escapeChar
          simp only [if_neg h1, if_neg h2, if_pos h3, List.cons_append, List.nil_append]
          rw [parseStr.eq_def]
          show (match hexVal (hexDigitChar (c.toNat / 16)) with
                | some v3 =>
                  match hexVal (hexDigitChar (c.toNat % 16)) with
                  | some v4 =>
                    match parseStr (escapeStr cs ++ '"' :: rest) with
                    | some (s2, r) =>
                      some (Char.ofNat (((0 * 16 + 0) * 16 + v3) * 16 + v4) :: s2, r)
                    | none => none
                  | none => none
                | none => none) = some (c :: cs, rest)
          rw [hexVal_hexDigitChar (c.toNat / 16) (by omega),
            hexVal_hexDigitChar (c.toNat % 16) (by omega), ih]
          show some (Char.ofNat (((0 * 16 + 0) * 16 + c.toNat / 16) * 16 + c.toNat % 16) :: cs,
            rest) = some (c :: cs, rest)
          have hv : ((0 * 16 + 0) * 16 + c.toNat / 16) * 16 + c.toNat % 16 = c.toNat := by
            omega
          rw [hv, Char.ofNat_toNat]
        · show parseStr ((escapeChar c ++ escapeStr cs) ++ '"' :: rest) = some (c :: cs, rest)
          unfold escapeChar
          simp only [if_neg h1, if_neg h2, if_neg h3, List.cons_append, List.nil_append]
          rw [parseStr.eq_def]
          simp only [if_neg h1, if_neg h2]
          rw [ih]

theorem digitChar_is_digit : ∀ n < 10, isDigitChar (Char.ofNat (48 + n)) = true := by decide

theorem digitChar_toNat : ∀ n < 10, (Char.ofNat (48 + n)).toNat = 48 + n := by decide

theorem digitChar_ne_zero : ∀ n < 10, 1 ≤ n → ¬ Char.ofNat (48 + n) = '0' := by decide

theorem natDigits_mem_digit (n : Nat) : ∀ c ∈ natDigits n, isDigitChar c = true := by
  induction n using Nat.strong_induction_on with
  | _ n ih =>
    rw [natDigits]
    split
    · intro c hc
      simp only [List.mem_cons, List.not_mem_nil, or_false] at hc
      subst hc
      exact digitChar_is_digit n ‹n < 10›
    · intro c hc
      rcases List.mem_append.mp hc with h | h
      · exact ih (n / 10) (Nat.div_lt_self (by omega) (by omega)) c h
      · simp only [List.mem_cons, List.not_mem_nil, or_false] at h
        subst h
        exact digitChar_is_digit (n % 10) (Nat.mod_lt n (by omega))

theorem natDigits_ne_nil (n : Nat) : natDigits n ≠ [] := by
  rw [natDigits]
  split
  · simp
  · simp

theorem digitsToNat_natDigits (n : Nat) : digitsToNat (natDigits n) = n := by
  induction n using Nat.strong_induction_on with
  | _ n ih =>
    rw [natDigits]
    split
    · show digitsToNat [Char.ofNat (48 + n)] = n
      unfold digitsToNat
      simp only [List.foldl_cons, List.foldl_nil]
      rw [digitChar_toNat n ‹n < 10›]
      omega
    · unfold digitsToNat
      rw [List.foldl_append]
      have ihv := ih (n / 10) (Nat.div_lt_self (by omega) (by omega))
      unfold digitsToNat at ihv
      rw [ihv]
      simp only [List.foldl_cons, List.foldl_nil]
      rw [digitChar_toNat (n % 10) (Nat.mod_lt n (by omega))]
      omega

theorem natDigits_head_ne_zero (n : Nat) (hn : 1 ≤ n) (d : Char) (t : List Char)
    (h : natDigits n = d :: t) : ¬ d = '0' := by
  induction n using Nat.strong_induction_on generalizing d t with
  | _ n ih =>
    rw [natDigits] at h
    split at h
    · simp only [List.cons.injEq] at h
      rw [← h.1]
      exact digitChar_ne_zero n ‹n < 10› hn
    · rcases hd : natDigits (n / 10) with _ | ⟨d0, t0⟩
      · exact absurd hd (natDigits_ne_nil (n / 10))
      · rw [hd] at h
        simp only [List.cons_append, List.cons.injEq] at h
        rw [← h.1]
        exact ih (n / 10) (Nat.div_lt_self (by omega) (by omega))
          (Nat.one_le_div_iff (by omega) |>.mpr (by omega)) d0 t0 hd

theorem leadZero_natDigits (n : Nat) : leadZero (natDigits n) = false := by
  rcases hd : natDigits n with _ | ⟨d, t⟩
  · exact absurd hd (natDigits_ne_nil n)
  · rcases t with _ | ⟨d2, t2⟩
    · rfl
    · by_cases hn : 1 ≤ n
      · have hne := natDigits_head_ne_zero n hn d (d2 :: t2) hd
        simp [leadZero, hne]
      · have hn0 : n = 0 := by omega
        subst hn0
        have h0 : natDigits 0 = ['0'] := by rw [natDigits]; rfl
        rw [h0] at hd
        simp at hd

theorem takeDigits_append (ds rest : List Char) (hds : ∀ c ∈ ds, isDigitChar c = true)
    (hrest : noDigitHead rest = true) : takeDigits (ds ++ rest) = (ds, rest) := by
  induction ds with
  | nil =>
    simp only [List.nil_append]
    cases rest with
    | nil => rfl
    | cons c r =>
      simp only [noDigitHead, Bool.not_eq_true'] at hrest
      simp [takeDigits, hrest]
  | cons c cs ih =>
    have hc : isDigitChar c = true := hds c (by simp)
    have ihv := ih (fun x hx => hds x (by simp [hx]))
    simp only [List.cons_append, takeDigits, hc, if_true, List.append_eq, ihv]

theorem parseNum_serInt (i : Int) (rest : List Char) (hnd : noDigitHead rest = true) :
    parseNum (serInt i ++ rest) = some (i, rest) := by
  cases i with
  | ofNat n =>
    show parseNum (natDigits n ++ rest) = some (Int.ofNat n, rest)
    obtain ⟨d, t, hd⟩ : ∃ d t, natDigits n = d :: t := by
      rcases h : natDigits n with _ | ⟨d, t⟩
      · exact absurd h (natDigits_ne_nil n)
      · exact ⟨d, t, rfl⟩
    have hdig : isDigitChar d = true := natDigits_mem_digit n d (by rw [hd]; simp)
    have hne : ¬ d = '-' := (digit_facts d hdig).2.2.2.1
    have htd := takeDigits_append (natDigits n) rest (natDigits_mem_digit n) hnd
    have hlz := leadZero_natDigits n
    have hdtn := digitsToNat_natDigits n
    rw [hd] at htd hlz hdtn
    rw [List.cons_append] at htd
    rw [hd, List.cons_append, parseNum.eq_def]
    simp only [if_neg hne, htd, hlz, Bool.false_eq_true, if_false, hdtn]
    rfl
  | negSucc m =>
    show parseNum ('-' :: (natDigits (m + 1) ++ rest)) = some (Int.negSucc m, rest)
    obtain ⟨d, t, hd⟩ : ∃ d t, natDigits (m + 1) = d :: t := by
      rcases h : natDigits (m + 1) with _ | ⟨d, t⟩
      · exact absurd h (natDigits_ne_nil (m + 1))
      · exact ⟨d, t, rfl⟩
    have htd := takeDigits_append (natDigits (m + 1)) rest (natDigits_mem_digit (m + 1)) hnd
    have hlz := leadZero_natDigits (m + 1)
    have hdtn := digitsToNat_natDigits (m + 1)
    rw [hd] at htd hlz hdtn
    rw [List.cons_append] at htd
    rw [hd, parseNum.eq_def]
    simp only [if_pos rfl, if_true, List.cons_append, htd, hlz, Bool.false_eq_true, if_false,
      hdtn]
    have hns : -((m + 1 : Nat) : Int) = Int.negSucc m := by
      rw [Int.negSucc_eq]
      push_cast
      ring
    rw [hns]

theorem serInt_head (i : Int) :
    ∃ d t, serInt i = d :: t ∧ (d = '-' ∨ isDigitChar d = true) := by
  cases i with
  | ofNat n =>
    rcases h : natDigits n with _ | ⟨d, t⟩
    · exact absurd h (natDigits_ne_nil n)
    · exact ⟨d, t, h, Or.inr (natDigits_mem_digit n d (by rw [h]; simp))⟩
  | negSucc m => exact ⟨'-', natDigits (m + 1), rfl, Or.inl rfl⟩

theorem serJson_head (v : Json) :
    ∃ c t, serJson v = c :: t ∧ isWsChar c = false ∧ ¬ c = ']' ∧ ¬ c = rbraceChar := by
  cases v with
  | jnull =>
    exact ⟨'n', ['u', 'l', 'l'], by simp only [serJson], by decide, by decide, by decide⟩
  | jbool b =>
    cases b with
    | true =>
      exact ⟨'t', ['r', 'u', 'e'], by simp only [serJson], by decide, by decide, by decide⟩
    | false =>
      exact ⟨'f', ['a', 'l', 's', 'e'], by simp only [serJson], by decide, by decide, by decide⟩
  | jnum i =>
    obtain ⟨d, t, hd, hdm⟩ := serInt_head i
    refine ⟨d, t, by simp only [serJson]; exact hd, ?_, ?_, ?_⟩
    · rcases hdm with rfl | hdig
      · decide
      · exact (digit_facts d hdig).1
    · rcases hdm with rfl | hdig
      · decide
      · exact (digit_facts d hdig).2.1
    · rcases hdm with rfl | hdig
      · decide
      · exact (digit_facts d hdig).2.2.1
  | jstr s =>
    exact ⟨'"', escapeStr s ++ ['"'], by simp only [serJson, serStr], by decide, by decide,
      by decide⟩
  | jarr xs =>
    cases xs with
    | nil => exact ⟨'[', [']'], by simp only [serJson], by decide, by decide, by decide⟩
    | cons x xs =>
      exact ⟨'[', serElems x xs ++ [']'], by simp only [serJson], by decide, by decide,
        by decide⟩
  | jobj fs =>
    cases fs with
    | nil =>
      exact ⟨lbraceChar, [rbraceChar], by simp only [serJson], by decide, by decide, by decide⟩
    | cons f fs =>
      exact ⟨lbraceChar, serFields f fs ++ [rbraceChar], by simp only [serJson], by decide,
        by decide, by decide⟩

theorem serJson_length_pos (v : Json) : 1 ≤ (serJson v).length := by
  obtain ⟨c, t, h, _, _, _⟩ := serJson_head v
  rw [h]
  simp

theorem serElems_head (x : Json) (xs : List Json) :
    ∃ c t, serElems x xs = c :: t ∧ isWsChar c = false ∧ ¬ c = ']' := by
  obtain ⟨c, t, hx, hws, hnb, _⟩ := serJson_head x
  cases xs with
  | nil => exact ⟨c, t, by simp only [serElems]; exact hx, hws, hnb⟩
  | cons y ys =>
    refine ⟨c, t ++ ',' :: serElems y ys, ?_, hws, hnb⟩
    simp only [serElems]
    rw [hx, List.cons_append]

theorem serFields_head (k : List Char) (v : Json) (fs : List (List Char × Json)) :
    ∃ u, serFields (k, v) fs = '"' :: u := by
  cases fs with
  | nil =>
    refine ⟨(escapeStr k ++ ['"']) ++ ':' :: serJson v, ?_⟩
    simp only [serFields, serStr, List.cons_append]
  | cons f2 fs2 =>
    refine ⟨(escapeStr k ++ ['"']) ++ ':' :: (serJson v ++ ',' :: serFields f2 fs2), ?_⟩
    simp only [serFields, serStr, List.cons_append, List.append_assoc]

/-- One unfolding step of `parseValue` at positive fuel. -/
theorem parseValue_succ (fuel : Nat) (s : List Char) :
    parseValue (fuel + 1) s =
      match skipWs s with
      | [] => none
      | c :: rest =>
        if c = 'n' then
          match rest with
          | 'u' :: 'l' :: 'l' :: r => some (.jnull, r)
          | _ => none
        else if c = 't' then
          match rest with
          | 'r' :: 'u' :: 'e' :: r => some (.jbool true, r)
          | _ => none
        else if c = 'f' then
          match rest with
          | 'a' :: 'l' :: 's' :: 'e' :: r => some (.jbool false, r)
          | _ => none
        else if c = '"' then
          match parseStr rest with
          | some (str, r) => some (.jstr str, r)
          | none => none
        else if c = '[' then
          match skipWs rest with
          | c2 :: r2 =>
            if c2 = ']' then some (.jarr [], r2)
            else
              match parseElems fuel rest with
              | some (xs, r) => some (.jarr xs, r)
              | none => none
          | [] => none
        else if c = lbraceChar then
          match skipWs rest with
          | c2 :: r2 =>
            if c2 = rbraceChar then some (.jobj [], r2)
            else
              match parseFields fuel rest with
              | some (fs, r) => some (.jobj fs, r)
              | none => none
          | [] => none
        else if c = '-' ∨ isDigitChar c then
          match parseNum (c :: rest) with
          | some (i, r) => some (.jnum i, r)
          | none => none
        else none := rfl

/-- One unfolding step of `parseElems` at positive fuel. -/
theorem parseElems_succ (fuel : Nat) (s : List Char) :
    parseElems (fuel + 1) s =
      match parseValue fuel s with
      | some (v, r) =>
        match skipWs r with
        | c :: r2 =>
          if c = ',' then
            match parseElems fuel r2 with
            | some (vs, r3) => some (v :: vs, r3)
            | none => none
          else if c = ']' then some ([v], r2)
          else none
        | [] => none
      | none => none := rfl

/-- One unfolding step of `parseFields` at positive fuel. -/
theorem parseFields_succ (fuel : Nat) (s : List Char) :
    parseFields (fuel + 1) s =
      match skipWs s with
      | c :: rest =>
        if c = '"' then
          match parseStr rest with
          | some (k, r) =>
            match skipWs r with
            | c1 :: r2 =>
              if c1 = ':' then
                match parseValue fuel r2 with
                | some (v, r3) =>
                  match skipWs r3 with
                  | c2 :: r4 =>
                    if c2 = ',' then
                      match parseFields fuel r4 with
                      | some (fs, r5) => some ((k, v) :: fs, r5)
                      | none => none
                    else if c2 = rbraceChar then some ([(k, v)], r4)
                    else none
                  | [] => none
                | none => none
              else none
            | [] => none
          | none => none
        else none
      | [] => none := rfl

/-- Joint fuel-indexed round-trip statement for values, array elements and
object fields: parsing a serialization (followed by the proper closer)
recovers exactly the serialized data. -/
theorem parse_serJson_mutual (fuel : Nat) :
    (∀ v rest, (serJson v).length ≤ fuel → noDigitHead rest = true →
      parseValue fuel (serJson v ++ rest) = some (v, rest)) ∧
    (∀ x xs rest, (serElems x xs).length + 1 ≤ fuel →
      parseElems fuel (serElems x xs ++ ']' :: rest) = some (x :: xs, rest)) ∧
    (∀ k v fs rest, (serFields (k, v) fs).length + 1 ≤ fuel →
      parseFields fuel (serFields (k, v) fs ++ rbraceChar :: rest) = some ((k, v) :: fs, rest)) := by
  induction fuel with
  | zero =>
    refine ⟨?_, ?_, ?_⟩
    · intro v rest hlen _
      have := serJson_length_pos v
      omega
    · intro x xs rest hlen
      omega
    · intro k v fs rest hlen
      omega
  | succ fuel ih =>
    obtain ⟨ihP, ihQ, ihR⟩ := ih
    refine ⟨?_, ?_, ?_⟩
    · intro v rest hlen hnd
      cases v with
      | jnull =>
        have hs : serJson Json.jnull = ['n', 'u', 'l', 'l'] := by simp only [serJson]
        rw [hs]
        rfl
      | jbool b =>
        cases b with
        | true =>
          have hs : serJson (Json.jbool true) = ['t', 'r', 'u', 'e'] := by simp only [serJson]
          rw [hs]
          rfl
        | false =>
          have hs : serJson (Json.jbool false) = ['f', 'a', 'l', 's', 'e'] := by
            simp only [serJson]
          rw [hs]
          rfl
      | jnum i =>
        have hs : serJson (Json.jnum i) = serInt i := by simp only [serJson]
        rw [hs]
        obtain ⟨d, t, hd, hdm⟩ := serInt_head i
        have hface : ¬ d = 'n' ∧ ¬ d = 't' ∧ ¬ d = 'f' ∧ ¬ d = '"' ∧ ¬ d = '[' ∧
            ¬ d = lbraceChar ∧ isWsChar d = false := by
          rcases hdm with rfl | hdig
          · exact ⟨by decide, by decide, by decide, by decide, by decide, by decide, by decide⟩
          · have hf := digit_facts d hdig
            exact ⟨hf.2.2.2.2.1, hf.2.2.2.2.2.1, hf.2.2.2.2.2.2.1, hf.2.2.2.2.2.2.2.1,
              hf.2.2.2.2.2.2.2.2.1, hf.2.2.2.2.2.2.2.2.2, hf.1⟩
        have hpn := parseNum_serInt i rest hnd
        rw [hd] at hpn ⊢
        rw [List.cons_append] at hpn ⊢
        rw [parseValue_succ, skipWs_cons _ _ hface.2.2.2.2.2.2]
        simp only [if_neg hface.1, if_neg hface.2.1, if_neg hface.2.2.1, if_neg hface.2.2.2.1,
          if_neg hface.2.2.2.2.1, if_neg hface.2.2.2.2.2.1,
          if_pos (show d = '-' ∨ isDigitChar d = true from hdm), hpn]
      | jstr s =>
        have hs : serJson (Json.jstr s) = '"' :: (escapeStr s ++ ['"']) := by
          simp only [serJson, serStr]
        rw [hs]
        simp only [List.cons_append, List.append_assoc, List.singleton_append]
        rw [parseValue_succ, skipWs_cons _ _ (by decide)]
        simp only [if_neg (show ¬ '"' = 'n' by decide), if_neg (show ¬ '"' = 't' by decide),
          if_neg (show ¬ '"' = 'f' by decide), if_pos rfl, parseStr_escape, if_true,
          List.nil_append]
      | jarr xs =>
        cases xs with
        | nil =>
          have hs : serJson (Json.jarr []) = ['[', ']'] := by simp only [serJson]
          rw [hs]
          rfl
        | cons x xs =>
          have hs : serJson (Json.jarr (x :: xs)) = '[' :: (serElems x xs ++ [']']) := by
            simp only [serJson]
          rw [hs] at hlen ⊢
          simp only [List.cons_append, List.append_assoc, List.singleton_append] at hlen ⊢
          obtain ⟨c0, u, hse, hws0, hnb0⟩ := serElems_head x xs
          have hQ := ihQ x xs rest (by
            simp only [List.length_cons, List.length_append] at hlen
            omega)
          rw [hse, List.cons_append] at hQ
          rw [parseValue_succ, skipWs_cons _ _ (by decide)]
          simp only [if_neg (show ¬ '[' = 'n' by decide), if_neg (show ¬ '[' = 't' by decide),
            if_neg (show ¬ '[' = 'f' by decide), if_neg (show ¬ '[' = '"' by decide),
            if_pos rfl]
          rw [hse, List.cons_append, skipWs_cons _ _ hws0]
          simp only [if_neg hnb0, hQ, if_true, List.nil_append]
      | jobj fs =>
        cases fs with
        | nil =>
          have hs : serJson (Json.jobj []) = [lbraceChar, rbraceChar] := by simp only [serJson]
          rw [hs]
          rfl
        | cons f fs =>
          obtain ⟨k, v⟩ := f
          have hs : serJson (Json.jobj ((k, v) :: fs)) =
              lbraceChar :: (serFields (k, v) fs ++ [rbraceChar]) := by
            simp only [serJson]
          rw [hs] at hlen ⊢
          simp only [List.cons_append, List.append_assoc, List.singleton_append] at hlen ⊢
          obtain ⟨u, hsf⟩ := serFields_head k v fs
          have hR := ihR k v fs rest (by
            simp only [List.length_cons, List.length_append] at hlen
            omega)
          rw [hsf, List.cons_append] at hR
          rw [parseValue_succ, skipWs_cons _ _ (by decide)]
          simp only [if_neg (show ¬ lbraceChar = 'n' by decide),
            if_neg (show ¬ lbraceChar = 't' by decide),
            if_neg (show ¬ lbraceChar = 'f' by decide),
            if_neg (show ¬ lbraceChar = '"' by decide),
            if_neg (show ¬ lbraceChar = '[' by decide), if_pos rfl]
          rw [hsf, List.cons_append, skipWs_cons _ _ (by decide)]
          simp only [if_neg (show ¬ '"' = rbraceChar by decide), hR, if_true, List.nil_append]
    · intro x xs rest hlen
      cases xs with
      | nil =>
        have hse : serElems x [] = serJson x := by simp only [serElems]
        rw [hse] at hlen ⊢
        have hP := ihP x (']' :: rest) (by omega) (by rfl)
        rw [parseElems_succ, hP]
        rfl
      | cons y ys =>
        have hse : serElems x (y :: ys) = serJson x ++ ',' :: serElems y ys := by
          simp only [serElems]
        rw [hse] at hlen ⊢
        simp only [List.length_append, List.length_cons] at hlen
        simp only [List.append_assoc, List.cons_append]
        have hP := ihP x (',' :: (serElems y ys ++ ']' :: rest)) (by omega) (by rfl)
        rw [parseElems_succ, hP]
        have hQ := ihQ y ys rest (by omega)
        show (match parseElems fuel (serElems y ys ++ ']' :: rest) with
              | some (vs, r3) => some (x :: vs, r3)
              | none => none) = some (x :: y :: ys, rest)
        rw [hQ]
    · intro k v fs rest hlen
      cases fs with
      | nil =>
        have hsf : serFields (k, v) [] = serStr k ++ ':' :: serJson v := by
          simp only [serFields]
        rw [hsf] at hlen ⊢
        simp only [serStr, List.length_append, List.length_cons] at hlen
        simp only [serStr, List.cons_append, List.append_assoc, List.singleton_append]
        rw [parseFields_succ, skipWs_cons _ _ (by decide)]
        simp only [if_pos rfl, parseStr_escape]
        have hP := ihP v (rbraceChar :: rest) (by omega) (by rfl)
        show (match parseValue fuel (serJson v ++ rbraceChar :: rest) with
              | some (v2, r3) =>
                match skipWs r3 with
                | c2 :: r4 =>
                  if c2 = ',' then
                    match parseFields fuel r4 with
                    | some (fs2, r5) => some ((k, v2) :: fs2, r5)
                    | none => none
                  else if c2 = rbraceChar then some ([(k, v2)], r4)
                  else none
                | [] => none
              | none => none) = some ([(k, v)], rest)
        rw [hP]
        rfl
      | cons f2 fs2 =>
        obtain ⟨k2, v2⟩ := f2
        have hsf : serFields (k, v) ((k2, v2) :: fs2) =
            serStr k ++ ':' :: (serJson v ++ ',' :: serFields (k2, v2) fs2) := by
          simp only [serFields, List.cons_append, List.append_assoc]
        rw [hsf] at hlen ⊢
        simp only [serStr, List.length_append, List.length_cons] at hlen
        simp only [serStr, List.cons_append, List.append_assoc, List.singleton_append]
        rw [parseFields_succ, skipWs_cons _ _ (by decide)]
        simp only [if_pos rfl, parseStr_escape]
        have hP := ihP v (',' :: (serFields (k2, v2) fs2 ++ rbraceChar :: rest)) (by omega)
          (by rfl)
        have hR := ihR k2 v2 fs2 rest (by omega)
        show (match parseValue fuel
                (serJson v ++ ',' :: (serFields (k2, v2) fs2 ++ rbraceChar :: rest)) with
              | some (v3, r3) =>
                match skipWs r3 with
                | c2 :: r4 =>
                  if c2 = ',' then
                    match parseFields fuel r4 with
                    | some (fs3, r5) => some ((k, v3) :: fs3, r5)
                    | none => none
                  else if c2 = rbraceChar then some ([(k, v3)], r4)
                  else none
                | [] => none
              | none => none) = some ((k, v) :: (k2, v2) :: fs2, rest)
        rw [hP]
        show (match parseFields fuel (serFields (k2, v2) fs2 ++ rbraceChar :: rest) with
              | some (fs3, r5) => some ((k, v) :: fs3, r5)
              | none => none) = some ((k, v) :: (k2, v2) :: fs2, rest)
        rw [hR]

/-- `JSON.parse ∘ JSON.stringify = id` on the JSON model. -/
theorem jsonParse_serJson (v : Json) : jsonParse (serJson v) = some v := by
  have hP := (parse_serJson_mutual ((serJson v).length + 1)).1 v [] (by omega) (by rfl)
  rw [List.append_nil] at hP
  unfold jsonParse
  rw [hP]
  rfl

/-! ### JS value helpers shared by the embedded modules -/

/-- JS `a || b` on `string | undefined` values: first operand if truthy,
otherwise the second operand (even when that is `undefined` or `""`). -/
def jsOr (a b : Option (List Char)) : Option (List Char) :=
  if truthy a then a else b

/-- JS `a ?? d` on a `string | undefined` value: replaces only
`undefined`/`null`, not the empty string. -/
def nullishD (a : Option (List Char)) (d : List Char) : List Char :=
  match a with
  | some s => s
  | none => d

/-- `claims[name]` member access restricted to the non-throwing JS cases:
objects use last-wins key lookup; booleans, numbers, strings and arrays
yield `undefined` for these (non-index) keys. In JS, access on `null`
*throws* a `TypeError`; `jsMember` below models that throwing case, and
the theorems over token extraction use it — `jsGetField` is only ever
meaningful under a non-`null`-claims hypothesis. -/
def jsGetField (j : Json) (key : List Char) : Option Json :=
  match j with
  | .jobj fields => jsLookup fields key
  | _ => none

/-! ### Token Claim Decoder (`parseJwtClaims`, two source variants) -/

/-- `MCP_SESSION_ID_HEADER` from `src/context.ts`. -/
def MCP_SESSION_ID_HEADER : List Char := "Mcp-Session-Id".data

/-- `AUTHORIZATION_HEADER` from `src/context.ts`. -/
def AUTHORIZATION_HEADER : List Char := "Authorization".data

/-- `parseJwtClaims` from `src/context.ts`: strips a case-insensitive
`"bearer "` prefix, splits on `.`, requires exactly three segments and a
nonempty payload, converts the payload from base64url to base64
(`-`→`+`, `_`→`/`), pads with `=` to a multiple-of-4 length, decodes
(forgiving base64, lossy UTF-8) and parses as JSON. Every failure path
yields the empty claim mapping; the function is total, so it never raises
to its caller (the source wraps the body in `try/catch`). -/
def parseJwtClaimsCtx (token : List Char) : Json :=
  let cleanToken :=
    if startsWithJS (jsToLower token) ("bearer ".data) then token.drop 7 else token
  let parts := splitOnDot cleanToken
  match parts with
  | [_, payload, _] =>
    if payload.isEmpty then Json.jobj []
    else
      let base64 := payload.map fun c => if c = '-' then '+' else if c = '_' then '/' else c
      let padded := base64 ++ List.replicate ((4 - base64.length % 4) % 4) '='
      let decoded := utf8Decode (base64Decode padded)
      match jsonParse decoded with
      | some j => j
      | none => Json.jobj []
  | _ => Json.jobj []

/-- `parseJwtClaims` from `src/types.ts`: same shape, but the payload is
decoded directly with `Buffer.from(payload, "base64url")` (the forgiving
decoder, no manual alphabet translation or padding). -/
def parseJwtClaimsTypes (token : List Char) : Json :=
  let tokenStr :=
    if startsWithJS (jsToLower token) ("bearer ".data) then token.drop 7 else token
  let parts := splitOnDot tokenStr
  match parts with
  | [_, payload, _] =>
    if payload.isEmpty then Json.jobj []
    else
      let decoded := utf8Decode (base64Decode payload)
      match jsonParse decoded with
      | some j => j
      | none => Json.jobj []
  | _ => Json.jobj []

/-- Claim probe of `extractUserIdFromToken` in `src/context.ts`: first
claim whose value is a string AND truthy (non-empty). -/
def probeClaimsCtx (claims : Json) : List (List Char) → Option (List Char)
  | [] => none
  | n :: rest =>
    match jsGetField claims n with
    | some (Json.jstr s) => if s.isEmpty then probeClaimsCtx claims rest else some s
    | _ => probeClaimsCtx claims rest

/-- Claim probe of `extractUserIdFromToken` in `src/types.ts`: first claim
whose value is a string — the empty string qualifies
(`typeof claims[claim] === "string"` with no truthiness check). -/
def probeClaimsTypes (claims : Json) : List (List Char) → Option (List Char)
  | [] => none
  | n :: rest =>
    match jsGetField claims n with
    | some (Json.jstr s) => some s
    | _ => probeClaimsTypes claims rest

/-- `extractUserIdFromToken` from `src/context.ts`: probes
`sub`, `user_id`, `userId`, `uid`, `user` in order. -/
def extractUserIdFromTokenCtx (token : List Char) : Option (List Char) :=
  probeClaimsCtx (parseJwtClaimsCtx token)
    ["sub".data, "user_id".data, "userId".data, "uid".data, "user".data]

/-- `extractUserIdFromToken` from `src/types.ts`: probes
`sub`, `user_id`, `userId`, `uid` in order. -/
def extractUserIdFromTokenTypes (token : List Char) : Option (List Char) :=
  probeClaimsTypes (parseJwtClaimsTypes token)
    ["sub".data, "user_id".data, "userId".data, "uid".data]

/-! ### Identity Extractor -/

/-- Result of `extractFromHeaders` (`src/types.ts`). -/
structure Identity where
  sessionId : Option (List Char)
  userId : Option (List Char)
deriving DecidableEq

/-- The single-pass loop of `extractFromHeaders`: case-insensitive key
comparison against `mcp-session-id` / `authorization`, skipping
`undefined` values, with early exit once both are found. -/
def extractFromHeadersLoop :
    List (List Char × Option (List Char)) → Option (List Char) → Option (List Char) →
    Option (List Char) × Option (List Char)
  | [], sessionId, authHeader => (sessionId, authHeader)
  | (key, value) :: entries, sessionId, authHeader =>
    match value with
    | none => extractFromHeadersLoop entries sessionId authHeader
    | some v =>
      let lowerKey := jsToLower key
      let sessionId2 :=
        if lowerKey = jsToLower MCP_SESSION_ID_HEADER then some v else sessionId
      let authHeader2 :=
        if lowerKey = jsToLower MCP_SESSION_ID_HEADER then authHeader
        else if lowerKey = jsToLower AUTHORIZATION_HEADER then some v
        else authHeader
      if sessionId2.isSome ∧ authHeader2.isSome then (sessionId2, authHeader2)
      else extractFromHeadersLoop entries sessionId2 authHeader2

/-- `extractFromHeaders` from `src/types.ts`: session id from the
`Mcp-Session-Id` header, user id from the `Authorization` header via the
types-module token extractor (the `authHeader ?` truthiness test skips an
empty authorization value). -/
def extractFromHeaders (headers : List (List Char × Option (List Char))) : Identity :=
  let (sessionId, authHeader) := extractFromHeadersLoop headers none none
  let userId :=
    match authHeader with
    | some a => if a.isEmpty then none else extractUserIdFromTokenTypes a
    | none => none
  ⟨sessionId, userId⟩

/-! ### Request Context Store (`src/context.ts`) -/

/-- `MCPRequestContext` from `src/context.ts`. -/
structure MCPRequestContext where
  sessionId : Option (List Char)
  userId : Option (List Char)
  headers : List (List Char × List Char)
  tokenClaims : Json

/-- Last-wins lookup in a JS object given as an entry list. -/
def jsRecordGet (entries : List (List Char × List Char)) (key : List Char) :
    Option (List Char) :=
  entries.foldl (fun acc kv => if kv.1 = key then some kv.2 else acc) none

/-- Lookup in the lowercase-normalized copy of a JS header object
(`normalizedHeaders` in `createMCPContext`): keys are lowercased on
insertion, so later entries with equal lowercased keys overwrite. -/
def normalizedGet (entries : List (List Char × List Char)) (key : List Char) :
    Option (List Char) :=
  entries.foldl (fun acc kv => if jsToLower kv.1 = key then some kv.2 else acc) none

/-- `createMCPContext` from `src/context.ts`: session id via the `||` chain
over the normalized and raw header lookups; user id and token claims from
the `Authorization` header when it is truthy. -/
def createMCPContext (headers : List (List Char × List Char)) : MCPRequestContext :=
  let sessionId :=
    jsOr (jsOr (normalizedGet headers (jsToLower MCP_SESSION_ID_HEADER))
      (normalizedGet headers ("mcp-session-id".data)))
      (jsRecordGet headers MCP_SESSION_ID_HEADER)
  let authHeader :=
    jsOr (jsOr (normalizedGet headers (jsToLower AUTHORIZATION_HEADER))
      (normalizedGet headers ("authorization".data)))
      (jsRecordGet headers AUTHORIZATION_HEADER)
  match authHeader with
  | some a =>
    if a.isEmpty then ⟨sessionId, none, headers, Json.jobj []⟩
    else ⟨sessionId, extractUserIdFromTokenCtx a, headers, parseJwtClaimsCtx a⟩
  | none => ⟨sessionId, none, headers, Json.jobj []⟩

/-- The `AsyncLocalStorage` ambient value visible at a program point:
absent outside every `run` scope. `getStore()` reads it. -/
def getMCPContext (store : Option MCPRequestContext) : Option MCPRequestContext :=
  store

/-- `runWithMCPContext` from `src/context.ts`, embedded reader-style:
`storage.run(ctx, fn)` executes `fn` with the ambient value replaced by
`ctx`; the caller's own ambient value is untouched (so it is visible again
after the scope exits, even if `fn` raises). `fn` receives the ambient
value it runs under. -/
def runWithMCPContext (headers : List (List Char × List Char))
    (fn : Option MCPRequestContext → α) (_store : Option MCPRequestContext) : α :=
  fn (some (createMCPContext headers))

/-! ### Instrumentation Wrapper (`createMCPWrapper`)

The span is modelled as explicit state: `setAttribute` overwrites by key
(OTel attribute semantics), `setStatus` stores the OTel status,
`recordException` counts recorded exceptions, `end` counts span closes.
A wrapped invocation is a pure function from the underlying function's
outcome (and the measured duration) to the final span state plus the
outcome surfaced to the caller. -/

/-- A span attribute value (string or numeric). -/
inductive AttrVal where
  | str (s : List Char)
  | num (n : Int)
deriving DecidableEq

/-- OTel span status set via `span.setStatus`. -/
inductive OtelStatus where
  | unset
  | ok
  | error (message : List Char)
deriving DecidableEq

structure SpanState where
  attributes : List (List Char × AttrVal)
  status : OtelStatus
  exceptionsRecorded : Nat
  endCount : Nat
deriving DecidableEq

/-- A freshly started span. -/
def SpanState.start : SpanState := ⟨[], .unset, 0, 0⟩

/-- `span.setAttribute(key, value)`. -/
def SpanState.setAttribute (span : SpanState) (key : List Char) (v : AttrVal) : SpanState :=
  { span with attributes := span.attributes ++ [(key, v)] }

/-- Attribute lookup (last write wins, as `setAttribute` overwrites). -/
def SpanState.attr (span : SpanState) (key : List Char) : Option AttrVal :=
  span.attributes.foldl (fun acc kv => if kv.1 = key then some kv.2 else acc) none

def SpanState.setStatus (span : SpanState) (st : OtelStatus) : SpanState :=
  { span with status := st }

def SpanState.recordException (span : SpanState) : SpanState :=
  { span with exceptionsRecorded := span.exceptionsRecorded + 1 }

def SpanState.endSpan (span : SpanState) : SpanState :=
  { span with endCount := span.endCount + 1 }

/-- Span attribute keys from `HeimdallAttributes` (`src/types.ts`). -/
def HEIMDALL_SESSION_ID : List Char := "heimdall.session_id".data

def HEIMDALL_USER_ID : List Char := "heimdall.user_id".data

def STATUS_ATTR : List Char := "heimdall.status".data

def ERROR_MESSAGE_ATTR : List Char := "heimdall.error.message".data

def ERROR_TYPE_ATTR : List Char := "heimdall.error.type".data

def DURATION_MS_ATTR : List Char := "heimdall.duration_ms".data

def SPAN_KIND_ATTR : List Char := "heimdall.span_kind".data

/-- A JS thrown value: an `Error` object, or any other value (for which
`recordError` builds `new Error(String(error))`). -/
inductive JsThrown where
  | errObj (name message : List Char)
  | nonErr (stringRepr : List Char)
deriving DecidableEq

/-- `errorObj.name` after the `error instanceof Error ? error : new
Error(String(error))` normalization (`new Error` has name `"Error"`). -/
def thrownName : JsThrown → List Char
  | .errObj n _ => n
  | .nonErr _ => "Error".data

/-- `errorObj.message` after the same normalization. -/
def thrownMessage : JsThrown → List Char
  | .errObj _ m => m
  | .nonErr r => r

/-- `recordError` from `src/types.ts` / `src/wrappers.ts`. -/
def recordError (span : SpanState) (error : JsThrown) : SpanState :=
  ((((span.setAttribute STATUS_ATTR (.str ("error".data))).setAttribute
    ERROR_MESSAGE_ATTR (.str (thrownMessage error))).setAttribute
    ERROR_TYPE_ATTR (.str (thrownName error))).setStatus
    (.error (thrownMessage error))).recordException

/-- `serializeValue`: `JSON.stringify`, with a `String(value)` fallback
the model never needs (`serJson` is total on the JSON value model). -/
def serializeValue (v : Json) : List Char := serJson v

/-- `argsToNamedObject` from `src/types.ts` / `src/wrappers.ts` (helper
for the positional case). -/
def buildNamedArgs : List Json → List (List Char) → Nat → List (List Char × Json)
  | [], _, _ => []
  | a :: as, names, i =>
    ((names.get? i).getD ("arg".data ++ natDigits i), a) :: buildNamedArgs as names (i + 1)

/-- `argsToNamedObject`: arguments stay a positional array unless a
nonempty `paramNames` list is configured. -/
def argsToNamedObject (args : List Json) (paramNames : Option (List (List Char))) : Json :=
  match paramNames with
  | none => Json.jarr args
  | some [] => Json.jarr args
  | some names => Json.jobj (buildNamedArgs args names 0)

/-- The outcome of a user-supplied extractor callback: it may throw (the
wrapper swallows the exception) or return `string | undefined`. -/
inductive ExtractorOutcome where
  | throws
  | returns (value : Option (List Char))

/-- Outcome of invoking the wrapped function `fn` (values restricted to
the serializable JSON model). -/
inductive FnOutcome where
  | ok (v : Json)
  | err (e : JsThrown)

/-- `WrapperOptions` from `src/types.ts` (the full variant; the
`src/wrappers.ts` variant omits `headers` and `sessionExtractor`). -/
structure WrapperOptions where
  nameOpt : Option (List Char) := none
  paramNames : Option (List (List Char)) := none
  captureInput : Option Bool := none
  captureOutput : Option Bool := none
  headers : Option (List (List Char × Option (List Char))) := none
  userExtractor : Option (List Json → ExtractorOutcome) := none
  sessionExtractor : Option (List Json → ExtractorOutcome) := none

/-- The session-id resolution of the `src/types.ts` wrapper body:
extractor result if present and truthy, else truthy header-derived id,
else the client's ambient value. -/
def resolveSessionId (opts : WrapperOptions) (headerData : Option Identity)
    (clientSessionId : Option (List Char)) (args : List Json) : Option (List Char) :=
  let fromExtractor : Option (List Char) :=
    match opts.sessionExtractor with
    | some ext =>
      match ext args with
      | .throws => none
      | .returns v => v
    | none => none
  let hdrSess : Option (List Char) :=
    match headerData with
    | some idy => idy.sessionId
    | none => none
  let afterHeader :=
    if ¬ truthy fromExtractor ∧ truthy hdrSess then hdrSess else fromExtractor
  if ¬ truthy afterHeader then clientSessionId else afterHeader

/-- The user-id resolution of the `src/types.ts` wrapper body (same shape
as the session chain, but the final attribute uses `?? "anonymous"`). -/
def resolveUserId (opts : WrapperOptions) (headerData : Option Identity)
    (clientUserId : Option (List Char)) (args : List Json) : Option (List Char) :=
  let fromExtractor : Option (List Char) :=
    match opts.userExtractor with
    | some ext =>
      match ext args with
      | .throws => none
      | .returns v => v
    | none => none
  let hdrUser : Option (List Char) :=
    match headerData with
    | some idy => idy.userId
    | none => none
  let afterHeader :=
    if ¬ truthy fromExtractor ∧ truthy hdrUser then hdrUser else fromExtractor
  if ¬ truthy afterHeader then clientUserId else afterHeader

/-- One invocation of a function wrapped by `createMCPWrapper` in
`src/types.ts`, with the telemetry client initialized. Parameters:
the wrapper specialization (span-kind tag and attribute keys), the
options, the client's ambient session/user ids (`client.getSessionId()` /
`client.getUserId()`), the resolved span name, the call's arguments, the
wrapped function's outcome, and the measured duration. Returns the final
span state and the outcome surfaced to the wrapped function's caller. -/
def runMCPWrapperTypes (spanKind nameAttr argsAttr resultAttr : List Char)
    (opts : WrapperOptions) (clientSessionId clientUserId : Option (List Char))
    (spanName : List Char) (args : List Json) (outcome : FnOutcome) (durationMs : Int) :
    SpanState × FnOutcome :=
  let headerData := opts.headers.map extractFromHeaders
  let s := (SpanState.start.setAttribute nameAttr (.str spanName)).setAttribute
    SPAN_KIND_ATTR (.str spanKind)
  let sessionId := resolveSessionId opts headerData clientSessionId args
  let s :=
    match sessionId with
    | some sid => if sid.isEmpty then s else s.setAttribute HEIMDALL_SESSION_ID (.str sid)
    | none => s
  let userId := resolveUserId opts headerData clientUserId args
  let s := s.setAttribute HEIMDALL_USER_ID (.str (nullishD userId ("anonymous".data)))
  let s :=
    if opts.captureInput.getD true then
      s.setAttribute argsAttr (.str (serializeValue (argsToNamedObject args opts.paramNames)))
    else s
  let (s, result) :=
    match outcome with
    | .ok v =>
      let s :=
        if opts.captureOutput.getD true then
          s.setAttribute resultAttr (.str (serializeValue v))
        else s
      (((s.setAttribute STATUS_ATTR (.str ("ok".data))).setStatus .ok), FnOutcome.ok v)
    | .err e => (recordError s e, FnOutcome.err e)
  ((s.setAttribute DURATION_MS_ATTR (.num durationMs)).endSpan, result)

/-- One invocation of a function wrapped by `createMCPWrapper` in
`src/wrappers.ts` (the variant without headers or a session extractor:
user id is the truthy result of `userExtractor`, else `"anonymous"`;
no session attribute is ever set). -/
def runMCPWrapperW (spanKind nameAttr argsAttr resultAttr : List Char)
    (opts : WrapperOptions) (spanName : List Char) (args : List Json)
    (outcome : FnOutcome) (durationMs : Int) : SpanState × FnOutcome :=
  let s := (SpanState.start.setAttribute nameAttr (.str spanName)).setAttribute
    SPAN_KIND_ATTR (.str spanKind)
  let userId :=
    match opts.userExtractor with
    | some ext =>
      match ext args with
      | .throws => "anonymous".data
      | .returns v => if truthy v then nullishD v ("anonymous".data) else "anonymous".data
    | none => "anonymous".data
  let s := s.setAttribute HEIMDALL_USER_ID (.str userId)
  let s :=
    if opts.captureInput.getD true then
      s.setAttribute argsAttr (.str (serializeValue (argsToNamedObject args opts.paramNames)))
    else s
  let (s, result) :=
    match outcome with
    | .ok v =>
      let s :=
        if opts.captureOutput.getD true then
          s.setAttribute resultAttr (.str (serializeValue v))
        else s
      (((s.setAttribute STATUS_ATTR (.str ("ok".data))).setStatus .ok), FnOutcome.ok v)
    | .err e => (recordError s e, FnOutcome.err e)
  ((s.setAttribute DURATION_MS_ATTR (.num durationMs)).endSpan, result)

/-! ### Client configuration and singleton (`src/config.ts`, `src/client.ts`) -/

/-- `HeimdallConfig` (user-supplied, all fields optional). -/
structure HeimdallConfig where
  apiKey : Option (List Char) := none
  endpoint : Option (List Char) := none
  serviceName : Option (List Char) := none
  environment : Option (List Char) := none
  orgId : Option (List Char) := none
  projectId : Option (List Char) := none
  sessionId : Option (List Char) := none
  userId : Option (List Char) := none
  enabled : Option Bool := none
  debug : Option Bool := none
  batchSize : Option Int := none
  flushIntervalMs : Option Int := none
  maxQueueSize : Option Int := none
  metadata : Option Json := none

/-- `ResolvedHeimdallConfig` (all defaults applied). -/
structure ResolvedHeimdallConfig where
  apiKey : Option (List Char)
  endpoint : List Char
  serviceName : List Char
  environment : List Char
  orgId : List Char
  projectId : List Char
  sessionId : Option (List Char)
  userId : Option (List Char)
  enabled : Bool
  debug : Bool
  batchSize : Int
  flushIntervalMs : Int
  maxQueueSize : Int
  metadata : Json

/-- The process environment, as `process.env` lookup. -/
def EnvMap : Type := List Char → Option (List Char)

/-- `getEnv`: `process.env[key] ?? defaultValue`. -/
def getEnv (env : EnvMap) (key : List Char) (defaultValue : Option (List Char)) :
    Option (List Char) :=
  match env key with
  | some v => some v
  | none => defaultValue

/-- `getEnvBool`: `value.toLowerCase() === "true"` when the variable is
set, else the default. -/
def getEnvBool (env : EnvMap) (key : List Char) (defaultValue : Bool) : Bool :=
  match env key with
  | some v => jsToLower v = "true".data
  | none => defaultValue

/-- `parseInt(value, 10)` restricted to its integer result: `none` models
`NaN` (no leading digits). -/
def parseIntJS (s : List Char) : Option Int :=
  match s with
  | '-' :: rest =>
    match takeDigits rest with
    | ([], _) => none
    | (ds, _) => some (-(digitsToNat ds : Int))
  | _ =>
    match takeDigits s with
    | ([], _) => none
    | (ds, _) => some ((digitsToNat ds : Int))

/-- `getEnvNumber`: `parseInt` of the variable, falling back on `NaN`. -/
def getEnvNumber (env : EnvMap) (key : List Char) (defaultValue : Int) : Int :=
  match env key with
  | some v =>
    match parseIntJS v with
    | some n => n
    | none => defaultValue
  | none => defaultValue

/-- `resolveConfig` from `src/config.ts`. -/
def resolveConfig (config : HeimdallConfig) (env : EnvMap) : ResolvedHeimdallConfig where
  apiKey :=
    match config.apiKey with
    | some v => some v
    | none => getEnv env ("HEIMDALL_API_KEY".data) none
  endpoint :=
    nullishD config.endpoint
      (nullishD (getEnv env ("HEIMDALL_ENDPOINT".data) (some ("http://localhost:4318".data)))
        [])
  serviceName :=
    nullishD config.serviceName
      (nullishD (getEnv env ("HEIMDALL_SERVICE_NAME".data) (some ("mcp-server".data))) [])
  environment :=
    nullishD config.environment
      (nullishD (getEnv env ("HEIMDALL_ENVIRONMENT".data) (some ("development".data))) [])
  orgId :=
    nullishD config.orgId
      (nullishD (getEnv env ("HEIMDALL_ORG_ID".data) (some ("default".data))) [])
  projectId :=
    nullishD config.projectId
      (nullishD (getEnv env ("HEIMDALL_PROJECT_ID".data) (some ("default".data))) [])
  sessionId :=
    match config.sessionId with
    | some v => some v
    | none => getEnv env ("HEIMDALL_SESSION_ID".data) none
  userId :=
    match config.userId with
    | some v => some v
    | none => getEnv env ("HEIMDALL_USER_ID".data) none
  enabled :=
    match config.enabled with
    | some b => b
    | none => getEnvBool env ("HEIMDALL_ENABLED".data) true
  debug :=
    match config.debug with
    | some b => b
    | none => getEnvBool env ("HEIMDALL_DEBUG".data) false
  batchSize :=
    match config.batchSize with
    | some n => n
    | none => getEnvNumber env ("HEIMDALL_BATCH_SIZE".data) 100
  flushIntervalMs :=
    match config.flushIntervalMs with
    | some n => n
    | none => getEnvNumber env ("HEIMDALL_FLUSH_INTERVAL_MS".data) 5000
  maxQueueSize :=
    match config.maxQueueSize with
    | some n => n
    | none => getEnvNumber env ("HEIMDALL_MAX_QUEUE_SIZE".data) 1000
  metadata :=
    match config.metadata with
    | some m => m
    | none => Json.jobj []

/-- The observable state of a `HeimdallClient` instance (the tracing
pipeline itself is the external OTel SDK and is out of model). -/
structure HeimdallClient where
  config : ResolvedHeimdallConfig

/-- `new HeimdallClient(config)` against the current value of the static
`HeimdallClient.instance` field: if an instance already exists the
constructor returns it unchanged (the supplied configuration is never
even resolved); otherwise it resolves the configuration, constructs the
client, and stores it as the singleton. Returns the constructed/returned
object and the new static field value. -/
def heimdallClientConstructor (instanceField : Option HeimdallClient)
    (config : HeimdallConfig) (env : EnvMap) : HeimdallClient × Option HeimdallClient :=
  match instanceField with
  | some inst => (inst, some inst)
  | none =>
    let c : HeimdallClient := ⟨resolveConfig config env⟩
    (c, some c)

/-- `HeimdallClient.getInstance()`. -/
def HeimdallClient.getInstance (instanceField : Option HeimdallClient) :
    Option HeimdallClient :=
  instanceField

/-! ### Wrapper specializations (`traceMCPTool` / `traceMCPResource` /
`traceMCPPrompt` from `src/types.ts`) -/

/-- `traceMCPTool` invocation (client initialized). -/
def traceMCPToolRun :=
  runMCPWrapperTypes ("mcp.tool".data) ("mcp.tool.name".data) ("mcp.tool.arguments".data)
    ("mcp.tool.result".data)

/-- `traceMCPResource` invocation (client initialized). -/
def traceMCPResourceRun :=
  runMCPWrapperTypes ("mcp.resource".data) ("mcp.resource.uri".data)
    ("mcp.resource.arguments".data) ("mcp.resource.result".data)

/-- `traceMCPPrompt` invocation (client initialized). -/
def traceMCPPromptRun :=
  runMCPWrapperTypes ("mcp.prompt".data) ("mcp.prompt.name".data)
    ("mcp.prompt.arguments".data) ("mcp.prompt.messages".data)

/-! ### Span-state bookkeeping lemmas -/

theorem attr_setAttribute (s : SpanState) (k key : List Char) (v : AttrVal) :
    (s.setAttribute k v).attr key = if k = key then some v else s.attr key := by
  unfold SpanState.setAttribute SpanState.attr
  rw [List.foldl_append]
  rfl

theorem attr_setStatus (s : SpanState) (st : OtelStatus) (key : List Char) :
    (s.setStatus st).attr key = s.attr key := rfl

theorem attr_recordException (s : SpanState) (key : List Char) :
    s.recordException.attr key = s.attr key := rfl

theorem attr_endSpan (s : SpanState) (key : List Char) :
    s.endSpan.attr key = s.attr key := rfl

theorem attr_start (key : List Char) : SpanState.start.attr key = none := rfl

theorem endCount_setAttribute (s : SpanState) (k : List Char) (v : AttrVal) :
    (s.setAttribute k v).endCount = s.endCount := rfl

theorem endCount_setStatus (s : SpanState) (st : OtelStatus) :
    (s.setStatus st).endCount = s.endCount := rfl

theorem endCount_recordException (s : SpanState) : s.recordException.endCount = s.endCount :=
  rfl

theorem status_setAttribute (s : SpanState) (k : List Char) (v : AttrVal) :
    (s.setAttribute k v).status = s.status := rfl

theorem status_endSpan (s : SpanState) : s.endSpan.status = s.status := rfl

theorem status_recordException (s : SpanState) : s.recordException.status = s.status := rfl

/-! ### Spec-side resolution chains (stated from the claims' words, to be
compared with the embedded wrapper) -/

/-- First entry in the priority list that is a non-empty string; absent if
none yields a value. -/
def firstTruthy : List (Option (List Char)) → Option (List Char)
  | [] => none
  | o :: rest => if truthy o then o else firstTruthy rest

/-- The session extractor's result for a call (absent when the callback is
not configured, returns `undefined`, or throws). -/
def sessionExtractorResult (opts : WrapperOptions) (args : List Json) :
    Option (List Char) :=
  match opts.sessionExtractor with
  | some ext =>
    match ext args with
    | .throws => none
    | .returns v => v
  | none => none

/-- The user extractor's result for a call. -/
def userExtractorResult (opts : WrapperOptions) (args : List Json) : Option (List Char) :=
  match opts.userExtractor with
  | some ext =>
    match ext args with
    | .throws => none
    | .returns v => v
  | none => none

/-- The session id derived from the configured header mapping (absent when
no headers were supplied). -/
def headerDerivedSessionId (opts : WrapperOptions) : Option (List Char) :=
  match opts.headers with
  | some hs => (extractFromHeaders hs).sessionId
  | none => none

/-- The user id derived from the configured header mapping. -/
def headerDerivedUserId (opts : WrapperOptions) : Option (List Char) :=
  match opts.headers with
  | some hs => (extractFromHeaders hs).userId
  | none => none

/-- C1's stated session resolution: extractor result if non-empty, else
header-derived id, else client ambient default; absent if none yields a
value. -/
def sessionPrioritySpec (opts : WrapperOptions) (clientSessionId : Option (List Char))
    (args : List Json) : Option (List Char) :=
  firstTruthy [sessionExtractorResult opts args, headerDerivedSessionId opts, clientSessionId]

/-- C2's stated user resolution: extractor result, else header-derived id,
else client ambient default, each counting only when it yields a (non-empty)
value, else the literal `"anonymous"`. -/
def userPriorityClaim (opts : WrapperOptions) (clientUserId : Option (List Char))
    (args : List Json) : List Char :=
  nullishD
    (firstTruthy [userExtractorResult opts args, headerDerivedUserId opts, clientUserId])
    ("anonymous".data)

/-- The amended user resolution implemented by the code: non-empty
extractor result, else non-empty header-derived id, else the client
ambient value whenever it is present — including the empty string, because
the final fallback uses nullish coalescing — else `"anonymous"`. -/
def userPriorityAmended (opts : WrapperOptions) (clientUserId : Option (List Char))
    (args : List Json) : List Char :=
  nullishD (jsOr (userExtractorResult opts args) (jsOr (headerDerivedUserId opts) clientUserId))
    ("anonymous".data)

theorem attr_ite_setAttribute (P : Prop) [Decidable P] (s : SpanState) (k : List Char)
    (v : AttrVal) (key : List Char) (h : ¬ k = key) :
    (if P then s.setAttribute k v else s).attr key = s.attr key := by
  split
  · simp [attr_setAttribute, h]
  · rfl

theorem headerData_sessionId_eq (opts : WrapperOptions) :
    (match opts.headers.map extractFromHeaders with
     | some i => i.sessionId
     | none => none) = headerDerivedSessionId opts := by
  rcases h : opts.headers with _ | hs <;> simp [headerDerivedSessionId, h]

theorem headerData_userId_eq (opts : WrapperOptions) :
    (match opts.headers.map extractFromHeaders with
     | some i => i.userId
     | none => none) = headerDerivedUserId opts := by
  rcases h : opts.headers with _ | hs <;> simp [headerDerivedUserId, h]

theorem resolveSessionId_eq_jsOr (opts : WrapperOptions) (hd : Option Identity)
    (cs : Option (List Char)) (args : List Json) :
    resolveSessionId opts hd cs args =
      jsOr (sessionExtractorResult opts args)
        (jsOr (match hd with | some i => i.sessionId | none => none) cs) := by
  unfold resolveSessionId sessionExtractorResult jsOr
  generalize (match opts.sessionExtractor with
    | some ext =>
      match ext args with
      | ExtractorOutcome.throws => none
      | ExtractorOutcome.returns v => v
    | none => none : Option (List Char)) = e
  generalize (match hd with
    | some i => i.sessionId
    | none => none : Option (List Char)) = h
  by_cases te : truthy e = true <;> by_cases th : truthy h = true <;> simp [te, th]

theorem resolveUserId_eq_jsOr (opts : WrapperOptions) (hd : Option Identity)
    (cu : Option (List Char)) (args : List Json) :
    resolveUserId opts hd cu args =
      jsOr (userExtractorResult opts args)
        (jsOr (match hd with | some i => i.userId | none => none) cu) := by
  unfold resolveUserId userExtractorResult jsOr
  generalize (match opts.userExtractor with
    | some ext =>
      match ext args with
      | ExtractorOutcome.throws => none
      | ExtractorOutcome.returns v => v
    | none => none : Option (List Char)) = e
  generalize (match hd with
    | some i => i.userId
    | none => none : Option (List Char)) = h
  by_cases te : truthy e = true <;> by_cases th : truthy h = true <;> simp [te, th]

theorem truthyFilter_jsOr_firstTruthy (e h c : Option (List Char)) :
    (match jsOr e (jsOr h c) with
     | some sid => if sid.isEmpty then none else some (AttrVal.str sid)
     | none => none) = Option.map AttrVal.str (firstTruthy [e, h, c]) := by
  rcases e with _ | s1 <;> rcases h with _ | s2 <;> rcases c with _ | s3 <;>
    simp [jsOr, truthy, firstTruthy] <;> split_ifs <;> simp_all

theorem attr_session_step (s : SpanState) (o : Option (List Char)) (key : List Char)
    (hbase : s.attr key = none) :
    (match o with
     | some sid => if sid.isEmpty then s else s.setAttribute key (AttrVal.str sid)
     | none => s).attr key =
    (match o with
     | some sid => if sid.isEmpty then none else some (AttrVal.str sid)
     | none => none) := by
  rcases o with _ | sid
  · exact hbase
  · by_cases he : sid.isEmpty <;> simp [he, attr_setAttribute, hbase]

theorem wrapperTypes_session_attr
    (spanKind nameAttr argsAttr resultAttr : List Char) (opts : WrapperOptions)
    (cs cu : Option (List Char)) (spanName : List Char) (args : List Json)
    (outcome : FnOutcome) (d : Int)
    (h1 : ¬ nameAttr = HEIMDALL_SESSION_ID) (h2 : ¬ argsAttr = HEIMDALL_SESSION_ID)
    (h3 : ¬ resultAttr = HEIMDALL_SESSION_ID) :
    (runMCPWrapperTypes spanKind nameAttr argsAttr resultAttr opts cs cu spanName args
      outcome d).1.attr HEIMDALL_SESSION_ID =
      Option.map AttrVal.str (sessionPrioritySpec opts cs args) := by
  have hkind : ¬ SPAN_KIND_ATTR = HEIMDALL_SESSION_ID := by decide
  have huser : ¬ HEIMDALL_USER_ID = HEIMDALL_SESSION_ID := by decide
  have hstat : ¬ STATUS_ATTR = HEIMDALL_SESSION_ID := by decide
  have hmsg : ¬ ERROR_MESSAGE_ATTR = HEIMDALL_SESSION_ID := by decide
  have htyp : ¬ ERROR_TYPE_ATTR = HEIMDALL_SESSION_ID := by decide
  have hdur : ¬ DURATION_MS_ATTR = HEIMDALL_SESSION_ID := by decide
  have hbase : ((SpanState.start.setAttribute nameAttr (AttrVal.str spanName)).setAttribute
      SPAN_KIND_ATTR (AttrVal.str spanKind)).attr HEIMDALL_SESSION_ID = none := by
    rw [attr_setAttribute, if_neg hkind, attr_setAttribute, if_neg h1, attr_start]
  unfold runMCPWrapperTypes
  rcases outcome with v | e <;>
    simp only [recordError, attr_endSpan, attr_setStatus, attr_recordException,
      attr_setAttribute, if_neg hdur, if_neg hstat, if_neg hmsg, if_neg htyp, if_neg huser,
      attr_ite_setAttribute, h2, h3, not_false_iff] <;>
    rw [attr_session_step _ _ _ hbase, resolveSessionId_eq_jsOr, headerData_sessionId_eq,
      truthyFilter_jsOr_firstTruthy] <;>
    rfl

theorem wrapperTypes_user_attr
    (spanKind nameAttr argsAttr resultAttr : List Char) (opts : WrapperOptions)
    (cs cu : Option (List Char)) (spanName : List Char) (args : List Json)
    (outcome : FnOutcome) (d : Int)
    (h2 : ¬ argsAttr = HEIMDALL_USER_ID) (h3 : ¬ resultAttr = HEIMDALL_USER_ID) :
    (runMCPWrapperTypes spanKind nameAttr argsAttr resultAttr opts cs cu spanName args
      outcome d).1.attr HEIMDALL_USER_ID =
      some (AttrVal.str (userPriorityAmended opts cu args)) := by
  have hstat : ¬ STATUS_ATTR = HEIMDALL_USER_ID := by decide
  have hmsg : ¬ ERROR_MESSAGE_ATTR = HEIMDALL_USER_ID := by decide
  have htyp : ¬ ERROR_TYPE_ATTR = HEIMDALL_USER_ID := by decide
  have hdur : ¬ DURATION_MS_ATTR = HEIMDALL_USER_ID := by decide
  unfold runMCPWrapperTypes
  rcases outcome with v | e <;>
    simp only [recordError, attr_endSpan, attr_setStatus, attr_recordException,
      attr_setAttribute, if_neg hdur, if_neg hstat, if_neg hmsg, if_neg htyp,
      attr_ite_setAttribute, h2, h3, not_false_iff, if_pos rfl] <;>
    rw [resolveUserId_eq_jsOr, headerData_userId_eq] <;>
    rfl


/-- C1: for every invocation of a wrapped MCP function
(`traceMCPTool`/`traceMCPResource`/`traceMCPPrompt`) with the client
initialized, the session attribute on the span equals the first non-empty
value of: the sessionExtractor result, the header-derived session id, the
client ambient default — and is absent when none yields a value (no
fallback literal). In particular, with both a sessionExtractor and
headers supplied, a non-empty extractor result wins. -/
theorem C1_session_priority_order :
    (∀ opts cs cu n args r d,
      (traceMCPToolRun opts cs cu n args r d).1.attr HEIMDALL_SESSION_ID =
        Option.map AttrVal.str (sessionPrioritySpec opts cs args)) ∧
    (∀ opts cs cu n args r d,
      (traceMCPResourceRun opts cs cu n args r d).1.attr HEIMDALL_SESSION_ID =
        Option.map AttrVal.str (sessionPrioritySpec opts cs args)) ∧
    (∀ opts cs cu n args r d,
      (traceMCPPromptRun opts cs cu n args r d).1.attr HEIMDALL_SESSION_ID =
        Option.map AttrVal.str (sessionPrioritySpec opts cs args)) ∧
    (∀ opts cs cu n args r d,
      sessionPrioritySpec opts cs args = none →
      (traceMCPToolRun opts cs cu n args r d).1.attr HEIMDALL_SESSION_ID = none) ∧
    (∀ opts cs cu n args r d ext hs v,
      opts.sessionExtractor = some ext → opts.headers = some hs →
      ext args = ExtractorOutcome.returns (some v) → v.isEmpty = false →
      (traceMCPToolRun opts cs cu n args r d).1.attr HEIMDALL_SESSION_ID =
        some (AttrVal.str v)) := by
  refine ⟨?_, ?_, ?_, ?_, ?_⟩
  · intro opts cs cu n args r d
    exact wrapperTypes_session_attr _ _ _ _ _ _ _ _ _ _ _
      (by decide) (by decide) (by decide)
  · intro opts cs cu n args r d
    exact wrapperTypes_session_attr _ _ _ _ _ _ _ _ _ _ _
      (by decide) (by decide) (by decide)
  · intro opts cs cu n args r d
    exact wrapperTypes_session_attr _ _ _ _ _ _ _ _ _ _ _
      (by decide) (by decide) (by decide)
  · intro opts cs cu n args r d h
    unfold traceMCPToolRun
    rw [wrapperTypes_session_attr ("mcp.tool".data) ("mcp.tool.name".data)
      ("mcp.tool.arguments".data) ("mcp.tool.result".data) opts cs cu n args r d
      (by decide) (by decide) (by decide), h]
    rfl
  · intro opts cs cu n args r d ext hs v he hh hr hv
    unfold traceMCPToolRun
    rw [wrapperTypes_session_attr ("mcp.tool".data) ("mcp.tool.name".data)
      ("mcp.tool.arguments".data) ("mcp.tool.result".data) opts cs cu n args r d
      (by decide) (by decide) (by decide)]
    simp [sessionPrioritySpec, firstTruthy, sessionExtractorResult, he, hr, truthy, hv]

theorem C1_session_priority_order_witness :
    (traceMCPToolRun
      { sessionExtractor := some (fun _ => ExtractorOutcome.returns (some ['e'])),
        headers := some [(MCP_SESSION_ID_HEADER, some ['h'])] }
      none none [] [] (FnOutcome.ok Json.jnull) 0).1.attr HEIMDALL_SESSION_ID =
      some (AttrVal.str ['e']) :=
  C1_session_priority_order.2.2.2.2 _ none none [] [] (FnOutcome.ok Json.jnull) 0 _ _ ['e']
    rfl rfl rfl rfl


theorem wUser_eq (opts : WrapperOptions) (args : List Json) :
    (match opts.userExtractor with
     | some ext =>
       match ext args with
       | ExtractorOutcome.throws => "anonymous".data
       | ExtractorOutcome.returns v =>
         if truthy v then nullishD v ("anonymous".data) else "anonymous".data
     | none => "anonymous".data) =
    nullishD (jsOr (userExtractorResult opts args) none) ("anonymous".data) := by
  unfold userExtractorResult jsOr
  rcases hx : opts.userExtractor with _ | ext
  · rfl
  · rcases ha : ext args with _ | v
    · simp [ha, truthy, nullishD]
    · rcases v with _ | s
      · simp [ha, truthy, nullishD]
      · by_cases h : truthy (some s) = true <;> simp [ha, h, nullishD]

theorem wrapperW_user_attr (sk na aa ra : List Char) (opts : WrapperOptions)
    (n : List Char) (args : List Json) (r : FnOutcome) (d : Int)
    (h2 : ¬ aa = HEIMDALL_USER_ID) (h3 : ¬ ra = HEIMDALL_USER_ID) :
    (runMCPWrapperW sk na aa ra opts n args r d).1.attr HEIMDALL_USER_ID =
      some (AttrVal.str
        (nullishD (jsOr (userExtractorResult opts args) none) ("anonymous".data))) := by
  have hstat : ¬ STATUS_ATTR = HEIMDALL_USER_ID := by decide
  have hmsg : ¬ ERROR_MESSAGE_ATTR = HEIMDALL_USER_ID := by decide
  have htyp : ¬ ERROR_TYPE_ATTR = HEIMDALL_USER_ID := by decide
  have hdur : ¬ DURATION_MS_ATTR = HEIMDALL_USER_ID := by decide
  unfold runMCPWrapperW
  rcases r with v | e <;>
    simp only [recordError, attr_endSpan, attr_setStatus, attr_recordException,
      attr_setAttribute, if_neg hdur, if_neg hstat, if_neg hmsg, if_neg htyp,
      attr_ite_setAttribute, h2, h3, not_false_iff, if_pos rfl] <;>
    rw [wUser_eq] <;> simp

/-- C2 counterexample: with no extractor and no headers but a client-level
ambient user id that is the empty string, the span's user attribute is the
empty string — not the literal `"anonymous"` the claimed priority chain
(where only a non-empty stage value counts) would produce, because the
final fallback uses nullish coalescing rather than `||`. -/
theorem C2_user_fallback_counterexample :
    (traceMCPToolRun {} none (some []) [] [] (FnOutcome.ok Json.jnull) 0).1.attr
        HEIMDALL_USER_ID = some (AttrVal.str []) ∧
    userPriorityClaim {} (some []) [] = "anonymous".data ∧
    ¬ ([] : List Char) = "anonymous".data := by
  refine ⟨?_, rfl, by decide⟩
  rfl

/-- C2 amended: the user attribute is always set, to the first truthy
(non-empty) value among extractor result, header-derived user id — then the
client ambient value whenever it is *present* (even empty, via `??`) — and
the literal `"anonymous"` only when that chain is absent. The wrappers.ts
variant has no header/ambient stages. When no extractor, no headers and no
ambient default are supplied at all, the attribute is `"anonymous"`. -/
theorem C2_user_priority_amended :
    (∀ opts cs cu n args r d,
      (traceMCPToolRun opts cs cu n args r d).1.attr HEIMDALL_USER_ID =
        some (AttrVal.str (userPriorityAmended opts cu args))) ∧
    (∀ opts cs cu n args r d,
      (traceMCPResourceRun opts cs cu n args r d).1.attr HEIMDALL_USER_ID =
        some (AttrVal.str (userPriorityAmended opts cu args))) ∧
    (∀ opts cs cu n args r d,
      (traceMCPPromptRun opts cs cu n args r d).1.attr HEIMDALL_USER_ID =
        some (AttrVal.str (userPriorityAmended opts cu args))) ∧
    (∀ sk na aa ra opts n args r d, ¬ aa = HEIMDALL_USER_ID → ¬ ra = HEIMDALL_USER_ID →
      (runMCPWrapperW sk na aa ra opts n args r d).1.attr HEIMDALL_USER_ID =
        some (AttrVal.str
          (nullishD (jsOr (userExtractorResult opts args) none) ("anonymous".data)))) ∧
    (∀ opts cs n args r d, opts.userExtractor = none → opts.headers = none →
      (traceMCPToolRun opts cs none n args r d).1.attr HEIMDALL_USER_ID =
        some (AttrVal.str ("anonymous".data))) := by
  refine ⟨?_, ?_, ?_, ?_, ?_⟩
  · intro opts cs cu n args r d
    exact wrapperTypes_user_attr _ _ _ _ _ _ _ _ _ _ _ (by decide) (by decide)
  · intro opts cs cu n args r d
    exact wrapperTypes_user_attr _ _ _ _ _ _ _ _ _ _ _ (by decide) (by decide)
  · intro opts cs cu n args r d
    exact wrapperTypes_user_attr _ _ _ _ _ _ _ _ _ _ _ (by decide) (by decide)
  · intro sk na aa ra opts n args r d h2 h3
    exact wrapperW_user_attr sk na aa ra opts n args r d h2 h3
  · intro opts cs n args r d hext hhdr
    unfold traceMCPToolRun
    rw [wrapperTypes_user_attr ("mcp.tool".data) ("mcp.tool.name".data)
      ("mcp.tool.arguments".data) ("mcp.tool.result".data) opts cs none n args r d
      (by decide) (by decide)]
    simp [userPriorityAmended, userExtractorResult, headerDerivedUserId, hext, hhdr,
      jsOr, truthy, nullishD]

theorem C2_user_priority_amended_witness :
    (traceMCPToolRun {} none none [] [] (FnOutcome.ok Json.jnull) 0).1.attr
      HEIMDALL_USER_ID = some (AttrVal.str ("anonymous".data)) :=
  C2_user_priority_amended.2.2.2.2 {} none [] [] (FnOutcome.ok Json.jnull) 0 rfl rfl

theorem endCount_endSpan (s : SpanState) : s.endSpan.endCount = s.endCount + 1 := rfl

theorem endCount_ite_setAttribute (P : Prop) [Decidable P] (s : SpanState) (k : List Char)
    (v : AttrVal) : (if P then s.setAttribute k v else s).endCount = s.endCount := by
  split <;> rfl

theorem status_setStatus (s : SpanState) (st : OtelStatus) : (s.setStatus st).status = st :=
  rfl

theorem status_ite_setAttribute (P : Prop) [Decidable P] (s : SpanState) (k : List Char)
    (v : AttrVal) : (if P then s.setAttribute k v else s).status = s.status := by
  split <;> rfl

theorem exc_setAttribute (s : SpanState) (k : List Char) (v : AttrVal) :
    (s.setAttribute k v).exceptionsRecorded = s.exceptionsRecorded := rfl

theorem exc_setStatus (s : SpanState) (st : OtelStatus) :
    (s.setStatus st).exceptionsRecorded = s.exceptionsRecorded := rfl

theorem exc_endSpan (s : SpanState) : s.endSpan.exceptionsRecorded = s.exceptionsRecorded :=
  rfl

theorem exc_recordException (s : SpanState) :
    s.recordException.exceptionsRecorded = s.exceptionsRecorded + 1 := rfl

theorem exc_ite_setAttribute (P : Prop) [Decidable P] (s : SpanState) (k : List Char)
    (v : AttrVal) : (if P then s.setAttribute k v else s).exceptionsRecorded =
      s.exceptionsRecorded := by
  split <;> rfl

theorem exc_session_step (s : SpanState) (o : Option (List Char)) (key : List Char) :
    (match o with
     | some sid => if sid.isEmpty then s else s.setAttribute key (AttrVal.str sid)
     | none => s).exceptionsRecorded = s.exceptionsRecorded := by
  rcases o with _ | sid
  · rfl
  · by_cases h : sid.isEmpty <;> simp [h, exc_setAttribute]

theorem endCount_session_step (s : SpanState) (o : Option (List Char)) (key : List Char) :
    (match o with
     | some sid => if sid.isEmpty then s else s.setAttribute key (AttrVal.str sid)
     | none => s).endCount = s.endCount := by
  rcases o with _ | sid
  · rfl
  · by_cases h : sid.isEmpty <;> simp [h, endCount_setAttribute]

theorem exc_start : SpanState.start.exceptionsRecorded = 0 := rfl

theorem endCount_start : SpanState.start.endCount = 0 := rfl

/-- C3: when the wrapped function raises `E`, the wrapped call (in both the
`src/types.ts` and `src/wrappers.ts` variants) surfaces exactly `E` to its
caller, marks the span with the `"error"` status attribute, attaches the
error message and type, sets the OTel span status to ERROR with the
message, records the exception, and ends the span exactly once. -/
theorem C3_error_propagation :
    ∀ sk na aa ra opts cs cu n args e d,
      ((runMCPWrapperTypes sk na aa ra opts cs cu n args (FnOutcome.err e) d).2 =
          FnOutcome.err e ∧
        ((runMCPWrapperTypes sk na aa ra opts cs cu n args (FnOutcome.err e) d).1.attr
            STATUS_ATTR = some (AttrVal.str ("error".data)) ∧
          (runMCPWrapperTypes sk na aa ra opts cs cu n args (FnOutcome.err e) d).1.attr
            ERROR_MESSAGE_ATTR = some (AttrVal.str (thrownMessage e)) ∧
          (runMCPWrapperTypes sk na aa ra opts cs cu n args (FnOutcome.err e) d).1.attr
            ERROR_TYPE_ATTR = some (AttrVal.str (thrownName e)) ∧
          (runMCPWrapperTypes sk na aa ra opts cs cu n args (FnOutcome.err e) d).1.status =
            OtelStatus.error (thrownMessage e) ∧
          (runMCPWrapperTypes sk na aa ra opts cs cu n args
            (FnOutcome.err e) d).1.exceptionsRecorded = 1 ∧
          (runMCPWrapperTypes sk na aa ra opts cs cu n args
            (FnOutcome.err e) d).1.endCount = 1)) ∧
      ((runMCPWrapperW sk na aa ra opts n args (FnOutcome.err e) d).2 =
          FnOutcome.err e ∧
        ((runMCPWrapperW sk na aa ra opts n args (FnOutcome.err e) d).1.attr
            STATUS_ATTR = some (AttrVal.str ("error".data)) ∧
          (runMCPWrapperW sk na aa ra opts n args (FnOutcome.err e) d).1.attr
            ERROR_MESSAGE_ATTR = some (AttrVal.str (thrownMessage e)) ∧
          (runMCPWrapperW sk na aa ra opts n args (FnOutcome.err e) d).1.attr
            ERROR_TYPE_ATTR = some (AttrVal.str (thrownName e)) ∧
          (runMCPWrapperW sk na aa ra opts n args (FnOutcome.err e) d).1.status =
            OtelStatus.error (thrownMessage e) ∧
          (runMCPWrapperW sk na aa ra opts n args
            (FnOutcome.err e) d).1.exceptionsRecorded = 1 ∧
          (runMCPWrapperW sk na aa ra opts n args (FnOutcome.err e) d).1.endCount = 1)) := by
  intro sk na aa ra opts cs cu n args e d
  have hds : ¬ DURATION_MS_ATTR = STATUS_ATTR := by decide
  have hdm : ¬ DURATION_MS_ATTR = ERROR_MESSAGE_ATTR := by decide
  have hdt : ¬ DURATION_MS_ATTR = ERROR_TYPE_ATTR := by decide
  have hts : ¬ ERROR_TYPE_ATTR = STATUS_ATTR := by decide
  have hms : ¬ ERROR_MESSAGE_ATTR = STATUS_ATTR := by decide
  have htm : ¬ ERROR_TYPE_ATTR = ERROR_MESSAGE_ATTR := by decide
  unfold runMCPWrapperTypes runMCPWrapperW recordError
  refine ⟨⟨rfl, ?_, ?_, ?_, ?_, ?_, ?_⟩, rfl, ?_, ?_, ?_, ?_, ?_, ?_⟩ <;>
    simp only [attr_endSpan, attr_setAttribute, attr_setStatus, attr_recordException,
      if_neg hds, if_neg hdm, if_neg hdt, if_neg hts, if_neg hms, if_neg htm,
      if_pos rfl, if_true, eq_self_iff_true, status_endSpan, status_setAttribute, status_setStatus,
      status_recordException, status_ite_setAttribute, endCount_endSpan,
      endCount_setAttribute, endCount_setStatus, endCount_recordException,
      endCount_ite_setAttribute, exc_setAttribute, exc_setStatus, exc_endSpan,
      exc_recordException, exc_ite_setAttribute, exc_session_step, endCount_session_step,
      exc_start, endCount_start, Nat.zero_add]

theorem splitOnDot_parts (a b c : List Char) (ha : '.' ∉ a) (hb : '.' ∉ b)
    (hc : '.' ∉ c) : splitOnDot (a ++ '.' :: b ++ '.' :: c) = [a, b, c] := by
  have hassoc : a ++ '.' :: b ++ '.' :: c = a ++ '.' :: (b ++ '.' :: c) := by simp
  rw [hassoc, splitOnDot_append_dot a _ ha, splitOnDot_append_dot b _ hb,
    splitOnDot_no_dot c hc]

theorem parseJwtClaimsTypes_parts (hd payload tl : List Char)
    (hnb : ¬ startsWithJS (jsToLower (hd ++ '.' :: payload ++ '.' :: tl))
      ("bearer ".data) = true)
    (hhd : '.' ∉ hd) (hp : '.' ∉ payload) (htl : '.' ∉ tl)
    (hne : ¬ payload.isEmpty = true) :
    parseJwtClaimsTypes (hd ++ '.' :: payload ++ '.' :: tl) =
      match jsonParse (utf8Decode (base64Decode payload)) with
      | some j => j
      | none => Json.jobj [] := by
  simp only [parseJwtClaimsTypes]
  rw [if_neg hnb, splitOnDot_parts _ _ _ hhd hp htl]
  simp only [if_neg hne]

/-- The claim's probe: first claim name (in the given order) whose value is
a non-empty string. -/
def userIdClaimSpec (claims : Json) : List (List Char) → Option (List Char)
  | [] => none
  | n :: rest =>
    match jsGetField claims n with
    | some (Json.jstr v) => if v.isEmpty then userIdClaimSpec claims rest else some v
    | _ => userIdClaimSpec claims rest

/-- What the `src/types.ts` probe actually implements: first claim name
whose value is a string, the empty string included. -/
def firstStringClaim (claims : Json) : List (List Char) → Option (List Char)
  | [] => none
  | n :: rest =>
    match jsGetField claims n with
    | some (Json.jstr v) => some v
    | _ => firstStringClaim claims rest

/-- The JSON claims payload `{"sub":"","user_id":"alice"}`. -/
def c4Payload : List Char := "\x7b\"sub\":\"\",\"user_id\":\"alice\"\x7d".data

/-- A well-formed three-segment token carrying an empty `sub` and a
non-empty `user_id`. -/
def c4Token : List Char :=
  'h' :: '.' :: base64urlEncode (utf8Encode c4Payload) ++ '.' :: ['s']

theorem c4Token_parse : parseJwtClaimsTypes c4Token =
    Json.jobj [("sub".data, Json.jstr []), ("user_id".data, Json.jstr ("alice".data))] := by
  show parseJwtClaimsTypes (['h'] ++ '.' :: base64urlEncode (utf8Encode c4Payload) ++
    '.' :: ['s']) = _
  rw [parseJwtClaimsTypes_parts ['h'] _ ['s'] (by decide) (by decide) (by decide)
    (by decide) (by decide)]
  rw [base64Decode_base64urlEncode _ (utf8Encode_lt c4Payload), utf8Decode_utf8Encode]
  rfl

theorem probeCtx_eq_spec (claims : Json) (order : List (List Char)) :
    probeClaimsCtx claims order = userIdClaimSpec claims order := by
  induction order with
  | nil => rfl
  | cons n rest ih =>
    simp only [probeClaimsCtx, userIdClaimSpec]
    rcases jsGetField claims n with _ | j
    · exact ih
    · cases j <;> simp [ih]

theorem probeTypes_eq_firstString (claims : Json) (order : List (List Char)) :
    probeClaimsTypes claims order = firstStringClaim claims order := by
  induction order with
  | nil => rfl
  | cons n rest ih =>
    simp only [probeClaimsTypes, firstStringClaim]
    rcases jsGetField claims n with _ | j
    · exact ih
    · cases j <;> simp [ih]

/-- The JSON claims payload `{"sub":"bob"}`. -/
def c4WitPayload : List Char := "\x7b\"sub\":\"bob\"\x7d".data

/-- A well-formed three-segment token with a non-empty `sub` claim. -/
def c4WitToken : List Char :=
  'h' :: '.' :: base64urlEncode (utf8Encode c4WitPayload) ++ '.' :: ['s']

theorem c4WitToken_parse : parseJwtClaimsTypes c4WitToken =
    Json.jobj [("sub".data, Json.jstr ("bob".data))] := by
  show parseJwtClaimsTypes (['h'] ++ '.' :: base64urlEncode (utf8Encode c4WitPayload) ++
    '.' :: ['s']) = _
  rw [parseJwtClaimsTypes_parts ['h'] _ ['s'] (by decide) (by decide) (by decide)
    (by decide) (by decide)]
  rw [base64Decode_base64urlEncode _ (utf8Encode_lt c4WitPayload), utf8Decode_utf8Encode]
  rfl

theorem toLower_eq_space_iff (c : Char) : Char.toLower c = ' ' ↔ c = ' ' := by
  unfold Char.toLower
  simp only []
  by_cases h : c.toNat ≥ 65 ∧ c.toNat ≤ 90
  · rw [if_pos h]
    constructor
    · intro he
      exfalso
      have h32 : (Char.ofNat (c.toNat + 32)).toNat = c.toNat + 32 := by
        unfold Char.ofNat
        have hv : (c.toNat + 32).isValidChar := Or.inl (by omega)
        rw [dif_pos hv]
        rfl
      rw [he] at h32
      have hs : (' ' : Char).toNat = 32 := rfl
      omega
    · intro he
      subst he
      exact absurd h (by decide)
  · rw [if_neg h]

theorem not_bearer_of_no_space (hd : List Char) (hsp : ' ' ∉ hd) (rest : List Char) :
    startsWithJS (jsToLower (hd ++ '.' :: rest)) ("bearer ".data) = false := by
  rcases hd with _ | ⟨c1, _ | ⟨c2, _ | ⟨c3, _ | ⟨c4, _ | ⟨c5, _ | ⟨c6, _ | ⟨c7, tl⟩⟩⟩⟩⟩⟩⟩ <;>
    simp +decide [jsToLower, startsWithJS, toLower_eq_space_iff]
  intro h1 h2 h3 h4 h5 h6
  simp at hsp
  tauto

theorem b64Val_replace_b64urlChar : ∀ n < 64,
    b64Val (if b64urlChar n = '-' then '+'
      else if b64urlChar n = '_' then '/' else b64urlChar n) = some n := by decide

theorem filterMap_b64Val_replicate_eq (k : Nat) :
    List.filterMap b64Val (List.replicate k '=') = [] := by
  induction k with
  | zero => rfl
  | succ n ih => simp [List.replicate, List.filterMap_cons, ih, b64Val]

theorem filterMap_b64Val_map_replace (ss : List Nat) (h : ∀ s ∈ ss, s < 64) :
    ((ss.map b64urlChar).map
      (fun c => if c = '-' then '+' else if c = '_' then '/' else c)).filterMap b64Val =
      ss := by
  induction ss with
  | nil => rfl
  | cons s rest ih =>
    have hs : s < 64 := h s (by simp)
    have hrest : ∀ x ∈ rest, x < 64 := fun x hx => h x (by simp [hx])
    simp only [List.map_cons, List.filterMap_cons, b64Val_replace_b64urlChar s hs, ih hrest]

theorem ctx_decode_collapse (bs : List Nat) (k : Nat) (h : ∀ b ∈ bs, b < 256) :
    base64Decode ((base64urlEncode bs).map
      (fun c => if c = '-' then '+' else if c = '_' then '/' else c) ++
      List.replicate k '=') = bs := by
  unfold base64Decode base64urlEncode
  rw [List.filterMap_append, filterMap_b64Val_replicate_eq, List.append_nil,
    filterMap_b64Val_map_replace _ (bytesToSextets_lt bs h)]
  exact sextetsToBytes_bytesToSextets bs h

theorem parseJwtClaimsCtx_parts (hd payload tl : List Char)
    (hnb : ¬ startsWithJS (jsToLower (hd ++ '.' :: payload ++ '.' :: tl))
      ("bearer ".data) = true)
    (hhd : '.' ∉ hd) (hp : '.' ∉ payload) (htl : '.' ∉ tl)
    (hne : ¬ payload.isEmpty = true) :
    parseJwtClaimsCtx (hd ++ '.' :: payload ++ '.' :: tl) =
      match jsonParse (utf8Decode (base64Decode
        (payload.map (fun c => if c = '-' then '+' else if c = '_' then '/' else c) ++
          List.replicate ((4 - payload.length % 4) % 4) '='))) with
      | some j => j
      | none => Json.jobj [] := by
  simp only [parseJwtClaimsCtx]
  rw [if_neg hnb, splitOnDot_parts _ _ _ hhd hp htl]
  simp only [if_neg hne, List.length_map]

theorem jsToLower_append (a b : List Char) :
    jsToLower (a ++ b) = jsToLower a ++ jsToLower b := by
  simp [jsToLower]

theorem drop_bearer_prefix (pre body : List Char) (hpre : jsToLower pre = "bearer ".data) :
    (pre ++ body).drop 7 = body := by
  have hlen : pre.length = 7 := by
    have h := congrArg List.length hpre
    simpa [jsToLower] using h
  rw [← hlen, List.drop_left]

theorem startsWith_bearer_of_prefix (pre body : List Char)
    (hpre : jsToLower pre = "bearer ".data) :
    startsWithJS (jsToLower (pre ++ body)) ("bearer ".data) = true := by
  rw [jsToLower_append, hpre]
  exact startsWithJS_append _ _

theorem parseJwtClaimsTypes_parts_bearer (pre hd payload tl : List Char)
    (hpre : jsToLower pre = "bearer ".data)
    (hhd : '.' ∉ hd) (hp : '.' ∉ payload) (htl : '.' ∉ tl)
    (hne : ¬ payload.isEmpty = true) :
    parseJwtClaimsTypes (pre ++ hd ++ '.' :: payload ++ '.' :: tl) =
      match jsonParse (utf8Decode (base64Decode payload)) with
      | some j => j
      | none => Json.jobj [] := by
  have hcond : startsWithJS (jsToLower (pre ++ (hd ++ '.' :: payload ++ '.' :: tl)))
      ("bearer ".data) = true :=
    startsWith_bearer_of_prefix pre (hd ++ '.' :: payload ++ '.' :: tl) hpre
  have hdrop : (pre ++ (hd ++ '.' :: payload ++ '.' :: tl)).drop 7 =
      hd ++ '.' :: payload ++ '.' :: tl :=
    drop_bearer_prefix pre (hd ++ '.' :: payload ++ '.' :: tl) hpre
  rw [show ("bearer ".data : List Char) = ['b', 'e', 'a', 'r', 'e', 'r', ' '] from rfl]
    at hcond
  have hassoc : pre ++ hd ++ '.' :: payload ++ '.' :: tl =
      pre ++ (hd ++ '.' :: payload ++ '.' :: tl) := by
    simp [List.append_assoc]
  simp only [parseJwtClaimsTypes]
  rw [hassoc, if_pos hcond, hdrop, splitOnDot_parts _ _ _ hhd hp htl]
  simp only [if_neg hne]

theorem parseJwtClaimsCtx_parts_bearer (pre hd payload tl : List Char)
    (hpre : jsToLower pre = "bearer ".data)
    (hhd : '.' ∉ hd) (hp : '.' ∉ payload) (htl : '.' ∉ tl)
    (hne : ¬ payload.isEmpty = true) :
    parseJwtClaimsCtx (pre ++ hd ++ '.' :: payload ++ '.' :: tl) =
      match jsonParse (utf8Decode (base64Decode
        (payload.map (fun c => if c = '-' then '+' else if c = '_' then '/' else c) ++
          List.replicate ((4 - payload.length % 4) % 4) '='))) with
      | some j => j
      | none => Json.jobj [] := by
  have hcond : startsWithJS (jsToLower (pre ++ (hd ++ '.' :: payload ++ '.' :: tl)))
      ("bearer ".data) = true :=
    startsWith_bearer_of_prefix pre (hd ++ '.' :: payload ++ '.' :: tl) hpre
  have hdrop : (pre ++ (hd ++ '.' :: payload ++ '.' :: tl)).drop 7 =
      hd ++ '.' :: payload ++ '.' :: tl :=
    drop_bearer_prefix pre (hd ++ '.' :: payload ++ '.' :: tl) hpre
  rw [show ("bearer ".data : List Char) = ['b', 'e', 'a', 'r', 'e', 'r', ' '] from rfl]
    at hcond
  have hassoc : pre ++ hd ++ '.' :: payload ++ '.' :: tl =
      pre ++ (hd ++ '.' :: payload ++ '.' :: tl) := by
    simp [List.append_assoc]
  simp only [parseJwtClaimsCtx]
  rw [hassoc, if_pos hcond, hdrop, splitOnDot_parts _ _ _ hhd hp htl]
  simp only [if_neg hne, List.length_map]

theorem b64urlChar_ne_dot : ∀ n < 64, ¬ b64urlChar n = '.' := by decide

theorem dot_notin_base64urlEncode (bs : List Nat) (h : ∀ b ∈ bs, b < 256) :
    '.' ∉ base64urlEncode bs := by
  unfold base64urlEncode
  intro hmem
  rcases List.mem_map.mp hmem with ⟨n, hn, he⟩
  exact b64urlChar_ne_dot n (bytesToSextets_lt bs h n hn) he

theorem utf8EncodeChar_ne_nil (c : Char) : utf8EncodeChar c ≠ [] := by
  unfold utf8EncodeChar
  simp only []
  split_ifs <;> simp

theorem utf8Encode_ne_nil (c : Char) (rest : List Char) : utf8Encode (c :: rest) ≠ [] := by
  rw [utf8Encode]
  intro h
  exact utf8EncodeChar_ne_nil c (List.append_eq_nil.mp h).1

theorem bytesToSextets_ne_nil (b : Nat) (bs : List Nat) : bytesToSextets (b :: bs) ≠ [] := by
  match bs with
  | [] => simp [bytesToSextets]
  | [b2] => simp [bytesToSextets]
  | b2 :: b3 :: rest => simp [bytesToSextets]

/-- The base64url-of-UTF-8-of-JSON payload encoder the round-trip claim
quantifies over. -/
def encodeClaims (v : Json) : List Char := base64urlEncode (utf8Encode (serJson v))

theorem encodeClaims_not_empty (v : Json) : ¬ (encodeClaims v).isEmpty = true := by
  obtain ⟨c, t, hh, _, _, _⟩ := serJson_head v
  unfold encodeClaims base64urlEncode
  rw [hh]
  rcases hu : utf8Encode (c :: t) with _ | ⟨b, bs⟩
  · exact absurd hu (utf8Encode_ne_nil c t)
  · rcases hb : bytesToSextets (b :: bs) with _ | ⟨x, xs⟩
    · exact absurd hb (bytesToSextets_ne_nil b bs)
    · simp

theorem dot_notin_encodeClaims (v : Json) : '.' ∉ encodeClaims v :=
  dot_notin_base64urlEncode _ (utf8Encode_lt _)

/-- C5: for every claim mapping (JSON object) `m`, a three-segment token
whose middle segment is the base64url-encoded UTF-8 JSON serialization of
`m` — with a dot-free, space-free header segment, a dot-free signature
segment, and optionally a case-insensitive `"Bearer "` prefix — decodes
back to exactly `m`, in both `parseJwtClaims` variants. -/
theorem C5_decode_roundtrip :
    ∀ (fields : List (List Char × Json)) (hd tl pre : List Char),
      '.' ∉ hd → '.' ∉ tl → ' ' ∉ hd →
      (pre = [] ∨ jsToLower pre = "bearer ".data) →
      parseJwtClaimsTypes (pre ++ hd ++ '.' :: encodeClaims (Json.jobj fields) ++ '.' :: tl)
        = Json.jobj fields ∧
      parseJwtClaimsCtx (pre ++ hd ++ '.' :: encodeClaims (Json.jobj fields) ++ '.' :: tl)
        = Json.jobj fields := by
  intro fields hd tl pre hhd htl hsp hpre
  have hp : '.' ∉ encodeClaims (Json.jobj fields) := dot_notin_encodeClaims _
  have hne : ¬ (encodeClaims (Json.jobj fields)).isEmpty = true := encodeClaims_not_empty _
  have hTypes : (match jsonParse (utf8Decode (base64Decode
      (encodeClaims (Json.jobj fields)))) with
      | some j => j
      | none => Json.jobj []) = Json.jobj fields := by
    unfold encodeClaims
    rw [base64Decode_base64urlEncode _ (utf8Encode_lt _), utf8Decode_utf8Encode,
      jsonParse_serJson]
  have hCtx : (match jsonParse (utf8Decode (base64Decode
      ((encodeClaims (Json.jobj fields)).map
        (fun c => if c = '-' then '+' else if c = '_' then '/' else c) ++
        List.replicate ((4 - (encodeClaims (Json.jobj fields)).length % 4) % 4) '='))) with
      | some j => j
      | none => Json.jobj []) = Json.jobj fields := by
    unfold encodeClaims
    rw [ctx_decode_collapse _ _ (utf8Encode_lt _), utf8Decode_utf8Encode, jsonParse_serJson]
  have hnb : ¬ startsWithJS (jsToLower (hd ++ '.' :: encodeClaims (Json.jobj fields) ++
      '.' :: tl)) ("bearer ".data) = true := by
    have h := not_bearer_of_no_space hd hsp (encodeClaims (Json.jobj fields) ++ '.' :: tl)
    have he : hd ++ '.' :: encodeClaims (Json.jobj fields) ++ '.' :: tl =
        hd ++ '.' :: (encodeClaims (Json.jobj fields) ++ '.' :: tl) := by
      simp
    rw [he, h]
    simp
  rcases hpre with rfl | hb
  · rw [List.nil_append]
    exact ⟨by rw [parseJwtClaimsTypes_parts hd _ tl hnb hhd hp htl hne, hTypes],
      by rw [parseJwtClaimsCtx_parts hd _ tl hnb hhd hp htl hne, hCtx]⟩
  · exact ⟨by rw [parseJwtClaimsTypes_parts_bearer pre hd _ tl hb hhd hp htl hne, hTypes],
      by rw [parseJwtClaimsCtx_parts_bearer pre hd _ tl hb hhd hp htl hne, hCtx]⟩

theorem C5_decode_roundtrip_witness :
    parseJwtClaimsTypes ([] ++ ['h'] ++ '.' ::
        encodeClaims (Json.jobj [("a".data, Json.jnum 1)]) ++ '.' :: ['s'])
      = Json.jobj [("a".data, Json.jnum 1)] ∧
    parseJwtClaimsCtx ([] ++ ['h'] ++ '.' ::
        encodeClaims (Json.jobj [("a".data, Json.jnum 1)]) ++ '.' :: ['s'])
      = Json.jobj [("a".data, Json.jnum 1)] :=
  C5_decode_roundtrip [("a".data, Json.jnum 1)] ['h'] ['s'] [] (by decide) (by decide)
    (by decide) (Or.inl rfl)

/-- The `"bearer "`-prefix strip both `parseJwtClaims` variants apply
before splitting (named here for stating the amended failure-path
properties). -/
def stripBearer (token : List Char) : List Char :=
  if startsWithJS (jsToLower token) ("bearer ".data) then token.drop 7 else token

theorem parseJwtClaimsTypes_strip_eq (token : List Char) :
    parseJwtClaimsTypes token =
      match splitOnDot (stripBearer token) with
      | [_, payload, _] =>
        if payload.isEmpty then Json.jobj []
        else
          match jsonParse (utf8Decode (base64Decode payload)) with
          | some j => j
          | none => Json.jobj []
      | _ => Json.jobj [] := rfl

theorem parseJwtClaimsCtx_strip_eq (token : List Char) :
    parseJwtClaimsCtx token =
      match splitOnDot (stripBearer token) with
      | [_, payload, _] =>
        if payload.isEmpty then Json.jobj []
        else
          let base64 :=
            payload.map fun c => if c = '-' then '+' else if c = '_' then '/' else c
          let padded := base64 ++ List.replicate ((4 - base64.length % 4) % 4) '='
          match jsonParse (utf8Decode (base64Decode padded)) with
          | some j => j
          | none => Json.jobj []
      | _ => Json.jobj [] := rfl

/-- The JSON text `{"a":1}`. -/
def c6Json : List Char := "\x7b\"a\":1\x7d".data

/-- The token `h.eyJhIjoxfQ!!!.s`: three segments, but the payload is not
valid base64 (it contains `!`). -/
def c6Token : List Char := ['h'] ++ '.' :: "eyJhIjoxfQ!!!".data ++ '.' :: ['s']

/-- C6 counterexample: the payload of `h.eyJhIjoxfQ!!!.s` contains `!`,
which is outside every base64 alphabet, so the payload is invalid base64 —
yet `parseJwtClaims` (types variant) returns the non-empty mapping
`{"a":1}`, because Node's forgiving decoder silently skips
non-alphabet characters. -/
theorem C6_invalid_base64_counterexample :
    c6Token = "h.eyJhIjoxfQ!!!.s".data ∧
    ('!' ∈ "eyJhIjoxfQ!!!".data ∧ b64Val '!' = none) ∧
    parseJwtClaimsTypes c6Token = Json.jobj [("a".data, Json.jnum 1)] ∧
    ¬ Json.jobj [("a".data, Json.jnum 1)] = Json.jobj [] := by
  refine ⟨by decide, by decide, ?_, by simp⟩
  rw [show c6Token = ['h'] ++ '.' :: "eyJhIjoxfQ!!!".data ++ '.' :: ['s'] from rfl,
    parseJwtClaimsTypes_parts ['h'] _ ['s'] (by decide) (by decide) (by decide)
      (by decide) (by decide)]
  have hb : base64Decode ("eyJhIjoxfQ!!!".data) = utf8Encode c6Json := by decide
  rw [hb, utf8Decode_utf8Encode]
  rfl

/-- C6 amended: both `parseJwtClaims` variants return the empty mapping
when the stripped token does not have exactly three dot-separated
segments, when the payload segment is empty, and when the (forgivingly)
decoded payload is not valid JSON. An invalid-base64 payload, however, is
*not* rejected: non-alphabet characters are skipped, so such a payload can
still decode to a non-empty mapping (the model is total, so no input
raises). -/
theorem C6_failure_paths_amended :
    (∀ token, (splitOnDot (stripBearer token)).length ≠ 3 →
      parseJwtClaimsTypes token = Json.jobj [] ∧
      parseJwtClaimsCtx token = Json.jobj []) ∧
    (∀ token a c, splitOnDot (stripBearer token) = [a, [], c] →
      parseJwtClaimsTypes token = Json.jobj [] ∧
      parseJwtClaimsCtx token = Json.jobj []) ∧
    (∀ token a p c, splitOnDot (stripBearer token) = [a, p, c] →
      jsonParse (utf8Decode (base64Decode p)) = none →
      parseJwtClaimsTypes token = Json.jobj []) ∧
    (∀ token a p c, splitOnDot (stripBearer token) = [a, p, c] →
      jsonParse (utf8Decode (base64Decode
        ((p.map fun x => if x = '-' then '+' else if x = '_' then '/' else x) ++
          List.replicate
            ((4 - (p.map fun x => if x = '-' then '+' else if x = '_' then '/' else x).length
              % 4) % 4) '='))) = none →
      parseJwtClaimsCtx token = Json.jobj []) := by
  refine ⟨?_, ?_, ?_, ?_⟩
  · intro token hlen
    rw [parseJwtClaimsTypes_strip_eq, parseJwtClaimsCtx_strip_eq]
    rcases hsp : splitOnDot (stripBearer token) with _ | ⟨a, _ | ⟨b, _ | ⟨c, _ | ⟨d, r⟩⟩⟩⟩ <;>
      rw [hsp] at hlen <;> simp at hlen ⊢
  · intro token a c hsp
    rw [parseJwtClaimsTypes_strip_eq, parseJwtClaimsCtx_strip_eq, hsp]
    simp
  · intro token a p c hsp hjson
    rw [parseJwtClaimsTypes_strip_eq, hsp]
    by_cases hpe : p.isEmpty
    · simp [hpe]
    · simp [hpe, hjson]
  · intro token a p c hsp hjson
    rw [parseJwtClaimsCtx_strip_eq, hsp]
    by_cases hpe : p.isEmpty
    · simp [hpe]
    · simp only [if_neg hpe, hjson]

theorem C6_failure_paths_amended_witness :
    parseJwtClaimsTypes ("abc".data) = Json.jobj [] ∧
    parseJwtClaimsCtx ("abc".data) = Json.jobj [] :=
  C6_failure_paths_amended.1 ("abc".data) (by decide)

/-- C7: the request context store nests: inside `run(B)` nested within
`run(A)`, `current()` is the context built from B's headers; after the
inner scope, code still inside the outer scope sees the context built
from A again; outside any `run` scope, `current()` is absent. -/
theorem C7_context_nesting :
    (∀ (A B : List (List Char × List Char)) (store : Option MCPRequestContext),
      runWithMCPContext A (fun ambientA =>
        (runWithMCPContext B (fun ambientB => getMCPContext ambientB) ambientA,
         getMCPContext ambientA)) store =
        (some (createMCPContext B), some (createMCPContext A))) ∧
    getMCPContext none = none :=
  ⟨fun _ _ _ => rfl, rfl⟩

/-- C10: constructing a `HeimdallClient` while a singleton instance exists
returns that existing instance with its resolved configuration untouched —
the newly supplied configuration is ignored — and `getInstance()` still
returns the first instance afterwards. -/
theorem C10_singleton_constructor :
    (∀ inst config env,
      heimdallClientConstructor (some inst) config env = (inst, some inst)) ∧
    (∀ inst config env,
      (heimdallClientConstructor (some inst) config env).1.config = inst.config) ∧
    (∀ inst config env, HeimdallClient.getInstance
      (heimdallClientConstructor (some inst) config env).2 = some inst) :=
  ⟨fun _ _ _ => rfl, fun _ _ _ => rfl, fun _ _ _ => rfl⟩

/-- C9 counterexample: an `Mcp-Session-Id` header whose value is the empty
string yields a *present* empty-string session id in both variants, and a
token with an empty-string `sub` claim makes the types-module extractor —
and hence the header-based user id — a present empty string. -/
theorem C9_empty_identifier_counterexample :
    extractFromHeaders [(MCP_SESSION_ID_HEADER, some [])] = ⟨some [], none⟩ ∧
    (createMCPContext [(MCP_SESSION_ID_HEADER, [])]).sessionId = some [] ∧
    extractUserIdFromTokenTypes c4Token = some [] ∧
    (extractFromHeaders [(AUTHORIZATION_HEADER, some c4Token)]).userId = some [] := by
  refine ⟨rfl, rfl, ?_, ?_⟩
  · unfold extractUserIdFromTokenTypes
    rw [c4Token_parse]
    rfl
  · show (if c4Token.isEmpty then none else extractUserIdFromTokenTypes c4Token) = some []
    rw [if_neg (by decide)]
    unfold extractUserIdFromTokenTypes
    rw [c4Token_parse]
    rfl

theorem probeClaimsCtx_nonempty (claims : Json) (order : List (List Char))
    (s : List Char) (h : probeClaimsCtx claims order = some s) : s.isEmpty = false := by
  induction order with
  | nil => exact absurd h (by simp [probeClaimsCtx])
  | cons n rest ih =>
    rw [probeClaimsCtx] at h
    rcases hg : jsGetField claims n with _ | j
    · rw [hg] at h
      exact ih h
    · rw [hg] at h
      cases j with
      | jstr v =>
        rcases v with _ | ⟨c, cs⟩
        · exact ih h
        · have h2 : some (c :: cs) = some s := h
          cases h2
          rfl
      | jnull => exact ih h
      | jbool b => exact ih h
      | jnum n2 => exact ih h
      | jarr xs => exact ih h
      | jobj fs => exact ih h

/-- C9 amended: the non-empty-or-absent invariant holds for the
context-module user id (the token probe only accepts non-empty strings,
so `extractUserIdFromToken` and `createMCPContext`'s user id are never a
present empty string) — but not for session ids (either variant) or the
types-module user id, which pass empty header values and empty
string-typed claims through as present values. -/
theorem C9_nonempty_amended :
    (∀ claims order s, probeClaimsCtx claims order = some s → s.isEmpty = false) ∧
    (∀ token s, extractUserIdFromTokenCtx token = some s → s.isEmpty = false) ∧
    (∀ headers s, (createMCPContext headers).userId = some s → s.isEmpty = false) := by
  refine ⟨probeClaimsCtx_nonempty, ?_, ?_⟩
  · intro token s h
    exact probeClaimsCtx_nonempty _ _ _ h
  · intro headers s h
    simp only [createMCPContext] at h
    rcases hA : jsOr (jsOr (normalizedGet headers (jsToLower AUTHORIZATION_HEADER))
        (normalizedGet headers ("authorization".data)))
        (jsRecordGet headers AUTHORIZATION_HEADER) with _ | a
    · rw [hA] at h
      simp at h
    · rw [hA] at h
      rcases a with _ | ⟨c, cs⟩
      · simp at h
      · exact probeClaimsCtx_nonempty _ _ _ h

theorem c4WitTokenCtx_parse : parseJwtClaimsCtx c4WitToken =
    Json.jobj [("sub".data, Json.jstr ("bob".data))] := by
  show parseJwtClaimsCtx (['h'] ++ '.' :: base64urlEncode (utf8Encode c4WitPayload) ++
    '.' :: ['s']) = _
  rw [parseJwtClaimsCtx_parts ['h'] _ ['s'] (by decide) (by decide) (by decide)
    (by decide) (by decide)]
  rw [ctx_decode_collapse _ _ (utf8Encode_lt _), utf8Decode_utf8Encode]
  rfl

theorem C9_nonempty_amended_witness :
    extractUserIdFromTokenCtx c4WitToken = some ("bob".data) ∧
    ("bob".data : List Char).isEmpty = false := by
  have hyp : extractUserIdFromTokenCtx c4WitToken = some ("bob".data) := by
    unfold extractUserIdFromTokenCtx
    rw [c4WitTokenCtx_parse]
    rfl
  exact ⟨hyp, C9_nonempty_amended.2.1 c4WitToken ("bob".data) hyp⟩

/-! ### Faithful member access: `claims[claim]` on JSON `null`

`parseJwtClaims` can return JSON `null` without raising (token
`h.bnVsbA.s`: three segments, payload decodes to the text `null`, and
`JSON.parse("null")` succeeds). Neither `extractUserIdFromToken` variant
guards the subsequent `claims[claim]` access with a try/catch, so on a
`null` claims value the access throws a `TypeError` that propagates out
of `extractFromHeaders` and `createMCPContext`. `JsOutcome` makes that
propagation explicit. -/

/-- Result of a JS computation that may throw to its caller. -/
inductive JsOutcome (α : Type) where
  | ok (v : α)
  | throws
deriving DecidableEq

/-- `claims[name]` member access on an arbitrary JS value parsed from
JSON: throws a `TypeError` on `null`; objects use last-wins key lookup;
booleans, numbers, strings and arrays yield `undefined` for these keys. -/
def jsMember (j : Json) (key : List Char) : JsOutcome (Option Json) :=
  match j with
  | .jnull => .throws
  | .jobj fields => .ok (jsLookup fields key)
  | _ => .ok none

/-- The claim-probe loop of `extractUserIdFromToken` in `src/context.ts`
with the throwing member access: `const value = claims[claimName]; if
(typeof value === "string" && value) return value;`. -/
def probeClaimsCtxE (claims : Json) : List (List Char) → JsOutcome (Option (List Char))
  | [] => .ok none
  | n :: rest =>
    match jsMember claims n with
    | .throws => .throws
    | .ok (some (Json.jstr s)) =>
      if s.isEmpty then probeClaimsCtxE claims rest else .ok (some s)
    | .ok _ => probeClaimsCtxE claims rest

/-- The claim-probe loop of `extractUserIdFromToken` in `src/types.ts`
with the throwing member access: `if (typeof claims[claim] === "string")
return claims[claim];`. -/
def probeClaimsTypesE (claims : Json) : List (List Char) → JsOutcome (Option (List Char))
  | [] => .ok none
  | n :: rest =>
    match jsMember claims n with
    | .throws => .throws
    | .ok (some (Json.jstr s)) => .ok (some s)
    | .ok _ => probeClaimsTypesE claims rest

/-- `extractUserIdFromToken` from `src/context.ts` (throwing model). -/
def extractUserIdFromTokenCtxE (token : List Char) : JsOutcome (Option (List Char)) :=
  probeClaimsCtxE (parseJwtClaimsCtx token)
    ["sub".data, "user_id".data, "userId".data, "uid".data, "user".data]

/-- `extractUserIdFromToken` from `src/types.ts` (throwing model). -/
def extractUserIdFromTokenTypesE (token : List Char) : JsOutcome (Option (List Char)) :=
  probeClaimsTypesE (parseJwtClaimsTypes token)
    ["sub".data, "user_id".data, "userId".data, "uid".data]

/-- `extractFromHeaders` from `src/types.ts` (throwing model): the
`extractUserIdFromToken(authHeader)` call is unguarded, so its
`TypeError` propagates to the caller. -/
def extractFromHeadersE (headers : List (List Char × Option (List Char))) :
    JsOutcome Identity :=
  let (sessionId, authHeader) := extractFromHeadersLoop headers none none
  match authHeader with
  | some a =>
    if a.isEmpty then .ok ⟨sessionId, none⟩
    else
      match extractUserIdFromTokenTypesE a with
      | .throws => .throws
      | .ok u => .ok ⟨sessionId, u⟩
  | none => .ok ⟨sessionId, none⟩

/-- `createMCPContext` from `src/context.ts` (throwing model): inside
`if (authHeader)`, `tokenClaims = parseJwtClaims(authHeader)` (total)
runs first, then the unguarded `userId = extractUserIdFromToken(...)`. -/
def createMCPContextE (headers : List (List Char × List Char)) :
    JsOutcome MCPRequestContext :=
  let sessionId :=
    jsOr (jsOr (normalizedGet headers (jsToLower MCP_SESSION_ID_HEADER))
      (normalizedGet headers ("mcp-session-id".data)))
      (jsRecordGet headers MCP_SESSION_ID_HEADER)
  let authHeader :=
    jsOr (jsOr (normalizedGet headers (jsToLower AUTHORIZATION_HEADER))
      (normalizedGet headers ("authorization".data)))
      (jsRecordGet headers AUTHORIZATION_HEADER)
  match authHeader with
  | some a =>
    if a.isEmpty then .ok ⟨sessionId, none, headers, Json.jobj []⟩
    else
      match extractUserIdFromTokenCtxE a with
      | .throws => .throws
      | .ok u => .ok ⟨sessionId, u, headers, parseJwtClaimsCtx a⟩
  | none => .ok ⟨sessionId, none, headers, Json.jobj []⟩

theorem jsMember_of_ne_null (j : Json) (h : ¬ j = Json.jnull) (key : List Char) :
    jsMember j key = JsOutcome.ok (jsGetField j key) := by
  cases j
  case jnull => exact absurd rfl h
  all_goals rfl

theorem probeClaimsCtxE_ok (claims : Json) (h : ¬ claims = Json.jnull)
    (order : List (List Char)) :
    probeClaimsCtxE claims order = JsOutcome.ok (probeClaimsCtx claims order) := by
  induction order with
  | nil => rfl
  | cons n rest ih =>
    rw [probeClaimsCtxE, probeClaimsCtx, jsMember_of_ne_null claims h]
    rcases hg : jsGetField claims n with _ | j
    · exact ih
    · cases j <;> simp [ih, apply_ite]
      split_ifs with he <;> (intro hc; simp_all)

theorem probeClaimsTypesE_ok (claims : Json) (h : ¬ claims = Json.jnull)
    (order : List (List Char)) :
    probeClaimsTypesE claims order = JsOutcome.ok (probeClaimsTypes claims order) := by
  induction order with
  | nil => rfl
  | cons n rest ih =>
    rw [probeClaimsTypesE, probeClaimsTypes, jsMember_of_ne_null claims h]
    rcases hg : jsGetField claims n with _ | j
    · exact ih
    · cases j <;> simp [ih]

theorem extractUserIdFromTokenCtxE_throws_iff (a : List Char) :
    extractUserIdFromTokenCtxE a = JsOutcome.throws ↔
      parseJwtClaimsCtx a = Json.jnull := by
  constructor
  · intro h
    by_contra hne
    rw [extractUserIdFromTokenCtxE, probeClaimsCtxE_ok _ hne] at h
    cases h
  · intro h
    rw [extractUserIdFromTokenCtxE, h]
    rfl

theorem extractUserIdFromTokenTypesE_throws_iff (a : List Char) :
    extractUserIdFromTokenTypesE a = JsOutcome.throws ↔
      parseJwtClaimsTypes a = Json.jnull := by
  constructor
  · intro h
    by_contra hne
    rw [extractUserIdFromTokenTypesE, probeClaimsTypesE_ok _ hne] at h
    cases h
  · intro h
    rw [extractUserIdFromTokenTypesE, h]
    rfl

/-- C4 counterexample: the `src/types.ts` variant, on a token carrying
`sub = ""` alongside `user_id = "alice"`, returns the empty string (its
probe accepts any string-typed claim), while the claimed probe — first
claim value that is a *non-empty* string — would return `"alice"`. -/
theorem C4_sub_priority_counterexample :
    extractUserIdFromTokenTypesE c4Token = JsOutcome.ok (some []) ∧
    userIdClaimSpec (parseJwtClaimsTypes c4Token)
      ["sub".data, "user_id".data, "userId".data, "uid".data] = some ("alice".data) ∧
    ¬ (some ([] : List Char) = some ("alice".data)) := by
  refine ⟨?_, ?_, by decide⟩
  · unfold extractUserIdFromTokenTypesE
    rw [c4Token_parse]
    rfl
  · rw [c4Token_parse]
    rfl

/-- C4 amended: when the decoded claims are not JSON `null`, the
`src/context.ts` variant probes `sub`, `user_id`, `userId`, `uid`,
`user` in order and returns the first non-empty string claim (as
claimed), while the `src/types.ts` variant probes `sub`, `user_id`,
`userId`, `uid` but returns the first *string-typed* claim, the empty
string included; when the claims decode to JSON `null`, both variants
throw a `TypeError` from the unguarded `claims[claim]` access instead of
returning. In both variants, claims carrying a non-empty string `sub`
yield exactly that `sub` value. -/
theorem C4_claim_probe_amended :
    (∀ token, ¬ parseJwtClaimsCtx token = Json.jnull →
      extractUserIdFromTokenCtxE token =
        JsOutcome.ok (userIdClaimSpec (parseJwtClaimsCtx token)
          ["sub".data, "user_id".data, "userId".data, "uid".data, "user".data])) ∧
    (∀ token, ¬ parseJwtClaimsTypes token = Json.jnull →
      extractUserIdFromTokenTypesE token =
        JsOutcome.ok (firstStringClaim (parseJwtClaimsTypes token)
          ["sub".data, "user_id".data, "userId".data, "uid".data])) ∧
    (∀ token, parseJwtClaimsCtx token = Json.jnull →
      extractUserIdFromTokenCtxE token = JsOutcome.throws) ∧
    (∀ token, parseJwtClaimsTypes token = Json.jnull →
      extractUserIdFromTokenTypesE token = JsOutcome.throws) ∧
    (∀ token fields v, parseJwtClaimsCtx token = Json.jobj fields →
      jsLookup fields ("sub".data) = some (Json.jstr v) → v.isEmpty = false →
      extractUserIdFromTokenCtxE token = JsOutcome.ok (some v)) ∧
    (∀ token fields v, parseJwtClaimsTypes token = Json.jobj fields →
      jsLookup fields ("sub".data) = some (Json.jstr v) →
      extractUserIdFromTokenTypesE token = JsOutcome.ok (some v)) := by
  refine ⟨?_, ?_, ?_, ?_, ?_, ?_⟩
  · intro token h
    rw [extractUserIdFromTokenCtxE, probeClaimsCtxE_ok _ h, probeCtx_eq_spec]
  · intro token h
    rw [extractUserIdFromTokenTypesE, probeClaimsTypesE_ok _ h,
      probeTypes_eq_firstString]
  · intro token h
    rw [extractUserIdFromTokenCtxE, h]
    rfl
  · intro token h
    rw [extractUserIdFromTokenTypesE, h]
    rfl
  · intro token fields v hp hsub hv
    have hno : ¬ parseJwtClaimsCtx token = Json.jnull := by
      rw [hp]
      simp
    rw [extractUserIdFromTokenCtxE, probeClaimsCtxE_ok _ hno, hp]
    simp [probeClaimsCtx, jsGetField, hsub, hv]
  · intro token fields v hp hsub
    have hno : ¬ parseJwtClaimsTypes token = Json.jnull := by
      rw [hp]
      simp
    rw [extractUserIdFromTokenTypesE, probeClaimsTypesE_ok _ hno, hp]
    simp [probeClaimsTypes, jsGetField, hsub]

theorem C4_claim_probe_amended_witness :
    extractUserIdFromTokenTypesE c4WitToken = JsOutcome.ok (some ("bob".data)) :=
  C4_claim_probe_amended.2.2.2.2.2 c4WitToken [("sub".data, Json.jstr ("bob".data))]
    ("bob".data) c4WitToken_parse rfl

/-- The token `h.bnVsbA.s`: three well-formed segments whose payload
decodes to the JSON text `null`. -/
def c8Token : List Char := ['h'] ++ '.' :: "bnVsbA".data ++ '.' :: ['s']

theorem c8Token_parseTypes : parseJwtClaimsTypes c8Token = Json.jnull := by
  show parseJwtClaimsTypes (['h'] ++ '.' :: "bnVsbA".data ++ '.' :: ['s']) = _
  rw [parseJwtClaimsTypes_parts ['h'] _ ['s'] (by decide) (by decide) (by decide)
    (by decide) (by decide)]
  have hb : base64Decode ("bnVsbA".data) = utf8Encode ("null".data) := by decide
  rw [hb, utf8Decode_utf8Encode]
  rfl

theorem c8Token_parseCtx : parseJwtClaimsCtx c8Token = Json.jnull := by
  show parseJwtClaimsCtx (['h'] ++ '.' :: "bnVsbA".data ++ '.' :: ['s']) = _
  rw [parseJwtClaimsCtx_parts ['h'] _ ['s'] (by decide) (by decide) (by decide)
    (by decide) (by decide)]
  have hb : base64Decode (("bnVsbA".data).map
      (fun c => if c = '-' then '+' else if c = '_' then '/' else c) ++
      List.replicate ((4 - ("bnVsbA".data : List Char).length % 4) % 4) '=') =
      utf8Encode ("null".data) := by decide
  rw [hb, utf8Decode_utf8Encode]
  rfl

/-- C8 counterexample: on the header mapping whose Authorization value is
`h.bnVsbA.s`, both `extractFromHeaders` and `createMCPContext` throw: the
payload decodes to JSON `null` without any `parseJwtClaims` failure path
firing, and the unguarded `claims[claim]` access in
`extractUserIdFromToken` then raises a `TypeError`. -/
theorem C8_raises_counterexample :
    c8Token = "h.bnVsbA.s".data ∧
    parseJwtClaimsTypes c8Token = Json.jnull ∧
    parseJwtClaimsCtx c8Token = Json.jnull ∧
    extractFromHeadersE [(AUTHORIZATION_HEADER, some c8Token)] = JsOutcome.throws ∧
    createMCPContextE [(AUTHORIZATION_HEADER, c8Token)] = JsOutcome.throws := by
  refine ⟨by decide, c8Token_parseTypes, c8Token_parseCtx, ?_, ?_⟩
  · have h1 : extractUserIdFromTokenTypesE c8Token = JsOutcome.throws :=
      (extractUserIdFromTokenTypesE_throws_iff c8Token).mpr c8Token_parseTypes
    show (match extractUserIdFromTokenTypesE c8Token with
      | JsOutcome.throws => JsOutcome.throws
      | JsOutcome.ok u => JsOutcome.ok (Identity.mk none u)) = JsOutcome.throws
    rw [h1]
  · have h2 : extractUserIdFromTokenCtxE c8Token = JsOutcome.throws :=
      (extractUserIdFromTokenCtxE_throws_iff c8Token).mpr c8Token_parseCtx
    show (match extractUserIdFromTokenCtxE c8Token with
      | JsOutcome.throws => JsOutcome.throws
      | JsOutcome.ok u =>
        JsOutcome.ok (MCPRequestContext.mk none u [(AUTHORIZATION_HEADER, c8Token)]
          (parseJwtClaimsCtx c8Token))) = JsOutcome.throws
    rw [h2]

theorem extractFromHeadersE_throws_iff (headers : List (List Char × Option (List Char))) :
    extractFromHeadersE headers = JsOutcome.throws ↔
      ∃ a, (extractFromHeadersLoop headers none none).2 = some a ∧
        a.isEmpty = false ∧ parseJwtClaimsTypes a = Json.jnull := by
  unfold extractFromHeadersE
  rcases hloop : extractFromHeadersLoop headers none none with ⟨sid, _ | a⟩
  · simp
  · rcases a with _ | ⟨c, cs⟩
    · simp
    · rcases hE : extractUserIdFromTokenTypesE (c :: cs) with u | _
      · constructor
        · intro h
          exact absurd h (by simp [hE])
        · rintro ⟨a, ha, hne2, hnull⟩
          cases ha
          have ht : extractUserIdFromTokenTypesE (c :: cs) = JsOutcome.throws :=
            (extractUserIdFromTokenTypesE_throws_iff _).mpr hnull
          rw [hE] at ht
          cases ht
      · have hnull := (extractUserIdFromTokenTypesE_throws_iff (c :: cs)).mp hE
        constructor
        · intro h2
          exact ⟨c :: cs, rfl, rfl, hnull⟩
        · intro h2
          simp [hE]

theorem createMCPContextE_throws_iff (headers : List (List Char × List Char)) :
    createMCPContextE headers = JsOutcome.throws ↔
      ∃ a, jsOr (jsOr (normalizedGet headers (jsToLower AUTHORIZATION_HEADER))
          (normalizedGet headers ("authorization".data)))
          (jsRecordGet headers AUTHORIZATION_HEADER) = some a ∧
        a.isEmpty = false ∧ parseJwtClaimsCtx a = Json.jnull := by
  unfold createMCPContextE
  rcases hA : jsOr (jsOr (normalizedGet headers (jsToLower AUTHORIZATION_HEADER))
      (normalizedGet headers ("authorization".data)))
      (jsRecordGet headers AUTHORIZATION_HEADER) with _ | a
  · simp
  · rcases a with _ | ⟨c, cs⟩
    · simp
    · rcases hE : extractUserIdFromTokenCtxE (c :: cs) with u | _
      · constructor
        · intro h
          exact absurd h (by simp [hE])
        · rintro ⟨a, ha, hne2, hnull⟩
          cases ha
          have ht : extractUserIdFromTokenCtxE (c :: cs) = JsOutcome.throws :=
            (extractUserIdFromTokenCtxE_throws_iff _).mpr hnull
          rw [hE] at ht
          cases ht
      · have hnull := (extractUserIdFromTokenCtxE_throws_iff (c :: cs)).mp hE
        constructor
        · intro h2
          exact ⟨c :: cs, rfl, rfl, hnull⟩
        · intro h2
          simp [hE]

/-- C8 amended: identity extraction tolerates an empty header mapping
(both fields absent, in both module variants) and returns normally on
malformed Authorization tokens — with one exception the original claim
misses: extraction throws if and only if the resolved Authorization value
is present, non-empty, and its payload decodes to JSON `null`, because
`extractUserIdFromToken`'s `claims[claim]` access is unguarded. On every
other Authorization value the result is the definite value of the token
probe. -/
theorem C8_extractIdentity_amended :
    extractFromHeadersE [] = JsOutcome.ok ⟨none, none⟩ ∧
    createMCPContextE [] = JsOutcome.ok ⟨none, none, [], Json.jobj []⟩ ∧
    (∀ a, ¬ parseJwtClaimsTypes a = Json.jnull →
      extractFromHeadersE [(AUTHORIZATION_HEADER, some a)] =
        JsOutcome.ok ⟨none, if a.isEmpty then none
          else probeClaimsTypes (parseJwtClaimsTypes a)
            ["sub".data, "user_id".data, "userId".data, "uid".data]⟩) ∧
    (∀ headers, extractFromHeadersE headers = JsOutcome.throws ↔
      ∃ a, (extractFromHeadersLoop headers none none).2 = some a ∧
        a.isEmpty = false ∧ parseJwtClaimsTypes a = Json.jnull) ∧
    (∀ headers, createMCPContextE headers = JsOutcome.throws ↔
      ∃ a, jsOr (jsOr (normalizedGet headers (jsToLower AUTHORIZATION_HEADER))
          (normalizedGet headers ("authorization".data)))
          (jsRecordGet headers AUTHORIZATION_HEADER) = some a ∧
        a.isEmpty = false ∧ parseJwtClaimsCtx a = Json.jnull) := by
  refine ⟨rfl, rfl, ?_, extractFromHeadersE_throws_iff, createMCPContextE_throws_iff⟩
  intro a hne
  rcases a with _ | ⟨c, cs⟩
  · rfl
  · show (match extractUserIdFromTokenTypesE (c :: cs) with
      | JsOutcome.throws => JsOutcome.throws
      | JsOutcome.ok u => JsOutcome.ok (Identity.mk none u)) = _
    rw [extractUserIdFromTokenTypesE, probeClaimsTypesE_ok _ hne]
    rfl

theorem C8_extractIdentity_amended_witness :
    extractFromHeadersE [(AUTHORIZATION_HEADER, some ("abc".data))] =
      JsOutcome.ok ⟨none, if ("abc".data : List Char).isEmpty then none
        else probeClaimsTypes (parseJwtClaimsTypes ("abc".data))
          ["sub".data, "user_id".data, "userId".data, "uid".data]⟩ :=
  C8_extractIdentity_amended.2.2.1 ("abc".data)
    (by rw [show parseJwtClaimsTypes ("abc".data) = Json.jobj [] from rfl]; simp)

end Heimdall
